import Mathlib

/-!
Verification development for the ASP language server (clinlint).

The definitions below are shallow embeddings of the Rust sources:
  - src/diagnostics/statement_analysis.rs  (safety checker)
  - src/semantics/term_semantic.rs         (term evaluation, usize values)
  - src/diagnostics/tree_utils.rs          (parallel draft, i64 values)
  - src/semantics/statement_semantic.rs    (attribute engine)
  - src/semantics/predicate_semantics.rs   (predicate index)
  - src/semantics/encoding_semantic.rs     (incremental pass, cleanup)
  - src/document.rs                        (update and reanalysis driver)

Variable sets (Rust HashSet of String) are Finset String; dependency lists
keep their order (Rust Vec). Machine integers are modelled as Nat with
explicit reduction modulo 2 to the 64 where wrap-around matters, and the
overflow-checked build profile is modelled by Option-valued arithmetic.
-/

namespace Clinlint

/-- A dependency pair: the set of provided variables and the set of depended
variables, as stored in the dependencies vectors of the semantics. -/
abbrev DepPair := Finset String × Finset String

/-- Union of all variables mentioned in a dependency list, in the fold order
of calculate_safe_set in statement_analysis.rs. -/
def varsMentioned (deps : List DepPair) : Finset String :=
  deps.foldl (fun acc pd => acc ∪ pd.1 ∪ pd.2) ∅

/-- get_dependencies_only_occuring_in_set from statement_analysis.rs:
intersect both components of every pair with the given set and keep the
pair when either intersection is nonempty, preserving order. -/
def get_dependencies_only_occuring_in_set (deps : List DepPair) (s : Finset String) :
    List DepPair :=
  deps.foldr
    (fun pd acc =>
      let pt := pd.1 ∩ s
      let dt := pd.2 ∩ s
      if pt ≠ ∅ ∨ dt ≠ ∅ then (pt, dt) :: acc else acc) []

/-- One pass of the retain loop in calculate_safe_set: walk the dependency
list in order; a pair whose depend set is below the current safe set is
discarded and its provide set is added to the safe set (later pairs in the
same pass already see the addition), any other pair is kept. -/
def safetyPass : List DepPair → Finset String → List DepPair × Finset String
  | [], safe => ([], safe)
  | (p, d) :: rest, safe =>
    if d ⊆ safe then safetyPass rest (safe ∪ p)
    else
      let r := safetyPass rest safe
      ((p, d) :: r.1, r.2)

/-- The loop of calculate_safe_set in statement_analysis.rs: run passes until
the length of the remaining dependency list equals the length recorded after
the previous pass (initially zero). The extra fuel argument makes the
recursion structural; a pass that does not stop strictly shrinks the list,
so the loop always stops within length plus two passes and the fuel value
used below is never exhausted (safeSetLoopF_zero makes this precise). -/
def safeSetLoopF : Nat → List DepPair → Finset String → Nat → Finset String
  | 0, _, safe, _ => safe
  | f + 1, dep, safe, prev =>
    if (safetyPass dep safe).1.length = prev then (safetyPass dep safe).2
    else
      safeSetLoopF f (safetyPass dep safe).1 (safetyPass dep safe).2
        (safetyPass dep safe).1.length

/-- Modelled from the spec, 4.3 step 3: start with safe empty, repeat the
pass, stop when a full pass discards nothing. -/
def specFixedPointLoop (dep : List DepPair) (safe : Finset String) :
    Finset String :=
  if (safetyPass dep safe).1.length = dep.length then (safetyPass dep safe).2
  else specFixedPointLoop (safetyPass dep safe).1 (safetyPass dep safe).2
termination_by dep.length
decreasing_by
  rename_i h
  have hle : (safetyPass dep safe).1.length ≤ dep.length := by
    clear h
    induction dep generalizing safe with
    | nil => simp [safetyPass]
    | cons pd rest ih =>
      obtain ⟨p, d⟩ := pd
      by_cases h2 : d ⊆ safe
      · simpa [safetyPass, h2] using Nat.le_succ_of_le (ih (safe ∪ p))
      · simpa [safetyPass, h2] using ih safe
  omega

/-- Modelled from the spec, 4.3: the global safe set obtained by the
fixed-point procedure starting from the empty safe set. -/
def specSafeSet (dep : List DepPair) : Finset String :=
  specFixedPointLoop dep ∅

/-- calculate_safe_set from statement_analysis.rs. Returns the safe set and
the set of all variables occurring in the dependency list. In the non-global
case the dependency list is first projected to the variables outside the
global set. -/
def calculate_safe_set (dependencies : List DepPair) (global_vars : Finset String)
    (global : Bool) : Finset String × Finset String :=
  let vars_in_dependency := varsMentioned dependencies
  let dep :=
    if global then dependencies
    else get_dependencies_only_occuring_in_set dependencies
      (vars_in_dependency \ global_vars)
  (safeSetLoopF (dep.length + 2) dep ∅ 0, vars_in_dependency)

/-- What type a literal is (tree_utils.rs LiteralType, extended with the
Disjunction variant of special_literal_semantic.rs). -/
inductive LiteralType where
  | Normal
  | Conjunction
  | AggregateElement
  | Disjunction
deriving DecidableEq

/-- Special literal semantics as consumed by check_safety_of_statement in
statement_analysis.rs: local dependency pairs and the recorded locations of
variables below the literal (here reduced to the ordered list of variable
names, one entry per occurrence). -/
structure SpecialLiteralSemantics where
  id : Nat
  kind : LiteralType
  local_dependency : List DepPair
  variable_locations : List String
deriving DecidableEq

/-- The diagnostics emission loop of check_safety_of_statement: for every
name in the given set, one UnsafeVariable diagnostic per recorded occurrence
of that name, represented by the occurrence name itself. The Rust code
iterates over a HashSet, whose order is unspecified; here the names are
enumerated through the occurrence list (a name of the set without any
occurrence emits nothing in either rendering), which yields the same
multiset of diagnostics. -/
def finsetDiagList (s : Finset String) (locs : List String) : List String :=
  (locs.dedup.filter (fun v => v ∈ s)).flatMap
    (fun v => locs.filter (fun o => o = v))

/-- The local-context part of check_safety_of_statement: for every special
literal, compute the local safe set (global flag false), subtract the
variables of the restricted global dependency list, and emit one diagnostic
per matching recorded occurrence. -/
def localDiagList (deps : List DepPair) (gv : Finset String)
    (specials : List SpecialLiteralSemantics) : List String :=
  let r := calculate_safe_set (get_dependencies_only_occuring_in_set deps gv) gv true
  specials.flatMap (fun sl =>
    let lr := calculate_safe_set sl.local_dependency gv false
    finsetDiagList ((lr.2 \ lr.1) \ r.2) sl.variable_locations)

/-- The global part of check_safety_of_statement: the unsafe set is the
variables of the restricted dependency list minus the computed safe set, and
one diagnostic is emitted per recorded occurrence of each unsafe name. -/
def globalDiagList (deps : List DepPair) (gv : Finset String)
    (occ : List String) : List String :=
  let r := calculate_safe_set (get_dependencies_only_occuring_in_set deps gv) gv true
  finsetDiagList (r.2 \ r.1) occ

/-- check_safety_of_statement from statement_analysis.rs, as a function of
the statement dependencies, global variables, special literals and the list
of variable occurrences below the statement node: the local diagnostics are
emitted first, then the global ones. -/
def check_safety_of_statement (deps : List DepPair) (gv : Finset String)
    (specials : List SpecialLiteralSemantics) (occ : List String) : List String :=
  localDiagList deps gv specials ++ globalDiagList deps gv occ

/-- Concrete syntax tree node: stable identifier, byte span, node kind,
source text of the node (used for leaves) and the children. The tree is
produced by the external parser; the analyses below read it only through
kind, text, span, id and child structure, as the Rust code does. -/
inductive CST where
  | mk (id : Nat) (span : Nat × Nat) (kind : String) (text : String)
      (children : List CST)

def CST.id : CST → Nat
  | .mk i _ _ _ _ => i

def CST.span : CST → Nat × Nat
  | .mk _ sp _ _ _ => sp

def CST.kind : CST → String
  | .mk _ _ k _ _ => k

def CST.text : CST → String
  | .mk _ _ _ tx _ => tx

def CST.children : CST → List CST
  | .mk _ _ _ _ ch => ch

/-- The operation of a term (term_semantic.rs TermOperator). -/
inductive TermOperator where
  | None
  | Add
  | Sub
  | Mul
  | Div
  | Dots
deriving DecidableEq

/-- The type of a term (term_semantic.rs TermType). -/
inductive TermType where
  | Unknown
  | Identifier
  | Constant
  | Variable
deriving DecidableEq

/-- TermSemantic from term_semantic.rs; values are usize constants. -/
structure TermSemantic where
  operator : TermOperator
  kind : TermType
  value : Finset Nat
  range : Nat × Nat
deriving DecidableEq

/-- TermSemantic::new from term_semantic.rs. -/
def TermSemantic.new : TermSemantic :=
  ⟨TermOperator.None, TermType.Unknown, ∅, (0, 0)⟩

/-- The usize modulus. -/
def usizeW : Nat := 2 ^ 64

/-- Value of a decimal digit character. -/
def digitVal (c : Char) : Option Nat :=
  if c = '0' then some 0 else if c = '1' then some 1 else if c = '2' then some 2
  else if c = '3' then some 3 else if c = '4' then some 4 else if c = '5' then some 5
  else if c = '6' then some 6 else if c = '7' then some 7 else if c = '8' then some 8
  else if c = '9' then some 9 else none

/-- Value of a nonempty all-digit character list, none otherwise. -/
def digitsVal : List Char → Option Nat
  | [] => none
  | l =>
    l.foldl
      (fun acc c =>
        match acc, digitVal c with
        | some a, some d => some (a * 10 + d)
        | _, _ => none)
      (some 0)

/-- Rust str::parse::<usize>().unwrap_or_default(): the numeral if it fits
into usize, zero on any parse failure (including overflow). -/
def parse_usize (s : String) : Nat :=
  match digitsVal s.data with
  | some n => if n < usizeW then n else 0
  | none => 0

/-- TermSemantic::evaluate from term_semantic.rs under the release profile:
usize arithmetic wraps modulo 2 to the 64 (the inputs produced by the
analysis are always below the modulus, so the explicit reductions are
identity there); a zero divisor is skipped rather than evaluated. -/
def TermSemantic.evaluate (a b : Finset Nat) (op : TermOperator) : Finset Nat :=
  match op with
  | .Add => (a ×ˢ b).image (fun p => (p.1 % usizeW + p.2 % usizeW) % usizeW)
  | .Sub => (a ×ˢ b).image (fun p => (p.1 % usizeW + (usizeW - p.2 % usizeW)) % usizeW)
  | .Mul => (a ×ˢ b).image (fun p => p.1 % usizeW * (p.2 % usizeW) % usizeW)
  | .Div => ((a ×ˢ b).filter (fun p => p.2 ≠ 0)).image (fun p => p.1 / p.2)
  | _ => ∅

/-- TermSemantic::evaluate under an overflow-checked profile (the one used
by cargo test): an elementwise add or multiply that exceeds usize, or a
subtraction that underflows, aborts the evaluation (modelled as none)
instead of returning a set. -/
def evaluateChecked (a b : Finset Nat) (op : TermOperator) :
    Option (Finset Nat) :=
  match op with
  | .Add =>
    if ∀ x ∈ a, ∀ y ∈ b, x + y < usizeW then
      some ((a ×ˢ b).image (fun p => p.1 + p.2))
    else none
  | .Sub =>
    if ∀ x ∈ a, ∀ y ∈ b, y ≤ x then
      some ((a ×ˢ b).image (fun p => p.1 - p.2))
    else none
  | .Mul =>
    if ∀ x ∈ a, ∀ y ∈ b, x * y < usizeW then
      some ((a ×ˢ b).image (fun p => p.1 * p.2))
    else none
  | .Div => some (((a ×ˢ b).filter (fun p => p.2 ≠ 0)).image (fun p => p.1 / p.2))
  | _ => some ∅

/-- TermSemantic::negate_comparison_operator from term_semantic.rs. -/
def negate_comparison_operator (operator : String) : String :=
  match operator with
  | "NEQ" => "EQ"
  | "EQ" => "NEQ"
  | "LT" => "GEQ"
  | "GT" => "LEQ"
  | "LEQ" => "GT"
  | "GEQ" => "LT"
  | _ => ""

/-- StatementSemantics from statement_semantic.rs: the attribute bundle
cached per node. -/
structure StatementSemantics where
  vars : Finset String
  global_vars : Finset String
  provide : Finset String
  depend : Finset String
  dependencies : List DepPair
  term : TermSemantic
  special_literals : List SpecialLiteralSemantics
deriving DecidableEq

/-- StatementSemantics::new. -/
def StatementSemantics.new : StatementSemantics :=
  ⟨∅, ∅, ∅, ∅, [], TermSemantic.new, []⟩

/-- get_statement_semantics_for_node applied to the i-th child: the cached
bundle, or a fresh one when absent. -/
def getSem (cs : List StatementSemantics) (i : Nat) : StatementSemantics :=
  cs[i]?.getD StatementSemantics.new

/-- The kind of the i-th child node (empty for out-of-range, which the Rust
code never reaches because of its count guards). -/
def childKind (ch : List CST) (i : Nat) : String :=
  (ch[i]?.map CST.kind).getD ""

def unionFold (l : List (Finset String)) : Finset String :=
  l.foldl (fun a s => a ∪ s) ∅

/-- is_evaluable from statement_semantic.rs: the node evaluates to a value
exactly when its term kind is Constant. -/
def isEvaluable (s : StatementSemantics) : Prop :=
  s.term.kind = TermType.Constant

instance (s : StatementSemantics) : Decidable (isEvaluable s) := by
  unfold isEvaluable
  infer_instance

/-- TermSemantic::from_node from term_semantic.rs, reading the children
bundles for composite terms. -/
def TermSemantic.from_node (kind text : String) (span : Nat × Nat)
    (ch : List CST) (cs : List StatementSemantics) : TermSemantic :=
  if kind = "dec" ∨ kind = "NUMBER" then
    ⟨TermOperator.None, TermType.Constant, {parse_usize text}, span⟩
  else if kind = "VARIABLE" then ⟨TermOperator.None, TermType.Variable, ∅, span⟩
  else if kind = "identifier" then ⟨TermOperator.None, TermType.Identifier, ∅, span⟩
  else if kind = "term" then
    if ch.length = 1 then
      let c := (getSem cs 0).term
      ⟨TermOperator.None, c.kind, c.value, span⟩
    else if 2 < ch.length then
      let opk := childKind ch 1
      if opk = "LPAREN" then ⟨TermOperator.None, TermType.Identifier, ∅, span⟩
      else
        let operator : TermOperator :=
          if opk = "ADD" then .Add
          else if opk = "SUB" then .Sub
          else if opk = "MUL" then .Mul
          else if opk = "SLASH" then .Div
          else if opk = "DOTS" then .Dots
          else .None
        let l := (getSem cs 0).term
        let r := (getSem cs 2).term
        if l.kind = TermType.Constant ∧ r.kind = TermType.Constant then
          ⟨operator, TermType.Constant, TermSemantic.evaluate l.value r.value operator, span⟩
        else if (l.kind = TermType.Variable ∧ r.kind = TermType.Constant)
            ∨ (l.kind = TermType.Constant ∧ r.kind = TermType.Variable)
            ∨ (l.kind = TermType.Variable ∧ r.kind = TermType.Variable) then
          ⟨operator, TermType.Variable, ∅, span⟩
        else ⟨operator, TermType.Unknown, ∅, span⟩
    else ⟨TermOperator.None, TermType.Unknown, ∅, span⟩
  else ⟨TermOperator.None, TermType.Unknown, ∅, span⟩

/-- check_for_variables from statement_semantic.rs. -/
def check_for_variables (kind text : String) (cs : List StatementSemantics)
    (b : StatementSemantics) : StatementSemantics :=
  if kind = "VARIABLE" then { b with vars := {text} }
  else if kind = "source_file" then b
  else { b with vars := unionFold (cs.map (fun s => s.vars)) }

/-- check_provide from statement_semantic.rs. -/
def check_provide (kind text : String) (ch : List CST)
    (cs : List StatementSemantics) (b : StatementSemantics) : StatementSemantics :=
  if kind = "NUMBER" ∨ kind = "identifier" then b
  else if kind = "VARIABLE" then { b with provide := {text} }
  else if kind = "term" then
    if ch.length = 1 then { b with provide := unionFold (cs.map (fun s => s.provide)) }
    else if 3 ≤ ch.length then
      let opk := childKind ch 1
      if opk = "LPAREN" then
        { b with provide := unionFold (cs.map (fun s => s.provide)) }
      else if opk = "ADD" ∨ opk = "SUB" then
        if isEvaluable (getSem cs 0) then { b with provide := (getSem cs 2).provide }
        else if isEvaluable (getSem cs 2) then { b with provide := (getSem cs 0).provide }
        else b
      else if opk = "MUL" then
        if isEvaluable (getSem cs 0) ∧ 0 ∉ (getSem cs 0).term.value then
          { b with provide := (getSem cs 2).provide }
        else if isEvaluable (getSem cs 2) ∧ 0 ∉ (getSem cs 2).term.value then
          { b with provide := (getSem cs 0).provide }
        else b
      else b
    else b
  else if kind = "termvec" then
    { b with provide := unionFold (cs.map (fun s => s.provide)) }
  else if kind = "argvec" then
    if ch.length = 1 then { b with provide := unionFold (cs.map (fun s => s.provide)) }
    else if ch.length = 3 ∧ childKind ch 1 = "SEM" then
      { b with provide := (getSem cs 0).provide ∩ (getSem cs 2).provide }
    else b
  else b

/-- check_depend from statement_semantic.rs. -/
def check_depend (kind : String) (ch : List CST)
    (cs : List StatementSemantics) (b : StatementSemantics) : StatementSemantics :=
  if kind = "termvec" then
    { b with depend := unionFold (cs.map (fun s => s.depend)) \ b.provide }
  else if kind = "argvec" then
    if ch.length = 1 then { b with depend := unionFold (cs.map (fun s => s.depend)) }
    else if ch.length = 3 ∧ childKind ch 1 = "SEM" then
      { b with depend := ((getSem cs 0).depend ∪ (getSem cs 2).depend) \ b.provide }
    else b
  else if kind = "term" then
    if ch.length = 1 then { b with depend := unionFold (cs.map (fun s => s.depend)) }
    else if 3 ≤ ch.length then
      if childKind ch 1 = "LPAREN" then
        { b with depend := unionFold (cs.map (fun s => s.depend)) }
      else { b with depend := b.vars \ b.provide }
    else b
  else if kind = "source_file" then b
  else { b with depend := unionFold (cs.map (fun s => s.depend)) }

mutual
/-- The VARIABLE query of tree_utils.rs do_simple_query: every VARIABLE node
below (or at) the given node, in tree order, by name. -/
def varOccs : CST → List String
  | .mk _ _ k tx ch => if k = "VARIABLE" then [tx] else varOccsList ch
def varOccsList : List CST → List String
  | [] => []
  | t :: ts => varOccs t ++ varOccsList ts
end

/-- Override the global-vars field of the i-th child bundle, as done by the
update_global_vars_for_node calls that check_dependencies performs on child
nodes of show, external and weak-constraint statements. -/
def overrideGV (cs : List StatementSemantics) (i : Nat) (v : Finset String) :
    List StatementSemantics :=
  cs.set i { getSem cs i with global_vars := v }

/-- The child kinds whose dependencies a body node collects. -/
def bodyKinds : List String :=
  ["literal", "bodycomma", "bodydot", "conjunction", "lubodyaggregate"]

/-- pass_on_dependencies_from_children restricted to bodyKinds. -/
def bodyDeps (ch : List CST) (cs : List StatementSemantics) : List DepPair :=
  ((ch.zip cs).filter (fun p => p.1.kind ∈ bodyKinds)).flatMap
    (fun p => p.2.dependencies)

/-- Index of the first child that is not a NOT token, if any: the atom_id
search loop of the literal arm of check_dependencies. -/
def firstNonNotAux : List CST → Option Nat
  | [] => none
  | c :: rest =>
    if c.kind ≠ "NOT" then some 0 else (firstNonNotAux rest).map (fun j => j + 1)

/-- The atom_id of the literal arm: the first non-NOT child index, or zero
when every child is a NOT token (the Rust loop leaves its initial value). -/
def firstNonNot (ch : List CST) : Nat := (firstNonNotAux ch).getD 0

/-- The updates that one check_dependencies visit requests: an optional
update_dependencies_for_node on the node, an optional
update_global_vars_for_node on the node, and the children bundles after the
update_global_vars_for_node calls on child nodes. -/
structure DepUpd where
  dependencies : Option (List DepPair)
  global_vars : Option (Finset String)
  children : List StatementSemantics

/-- check_dependencies from statement_semantic.rs, rendered as the updates
it performs. The arms for lubodyaggregate, altheadaggrelemvec, disjunction
and the optimize element lists are not modelled; trees in this development
do not contain those kinds (headaggregate and luheadaggregate are empty arms
in the source as well). The update_global_vars_for_node calls on child node
entries appear here through the children field, which feeds the same
visit's check_global_vars; their persistence in the statement_semantics
cache across visits is modelled separately by ovWrites in the incremental
pass. -/
def check_dependencies_core (kind : String) (ch : List CST)
    (cs : List StatementSemantics) (b : StatementSemantics) : DepUpd :=
  if kind = "statement" then
    if 1 ≤ ch.length then
      let head := childKind ch 0
      let deps0 : List DepPair := [(∅, (getSem cs 0).vars)]
      if (head = "SHOW" ∨ head = "EXTERNAL") ∧ 2 ≤ ch.length then
        let termSem := getSem cs 1
        let deps1 := deps0 ++ [(∅, termSem.vars)]
        let cs1 := overrideGV cs 1 termSem.vars
        let deps2 :=
          if 4 ≤ ch.length ∧ childKind ch 2 = "COLON" ∧ childKind ch 3 = "bodydot"
          then deps1 ++ (getSem cs 3).dependencies else deps1
        ⟨some deps2, none, cs1⟩
      else if (head = "IF" ∨ head = "WIF") ∧ 2 ≤ ch.length then
        let deps1 :=
          if childKind ch 1 = "bodydot" then deps0 ++ (getSem cs 1).dependencies
          else deps0
        if head = "WIF" then
          let w := getSem cs 3
          let deps2 := deps1 ++ [(∅, w.vars)]
          let cs1 := overrideGV cs 3 w.vars
          if 5 ≤ ch.length then
            let t := getSem cs 4
            ⟨some (deps2 ++ [(∅, t.vars)]), none, overrideGV cs1 4 t.vars⟩
          else ⟨some deps2, none, cs1⟩
        else ⟨some deps1, none, cs⟩
      else if 3 ≤ ch.length then
        let bk := childKind ch 2
        let deps1 :=
          if bk = "bodydot" ∨ bk = "maxelemlist" ∨ bk = "minelemlist"
          then deps0 ++ (getSem cs 2).dependencies else deps0
        ⟨some deps1, none, cs⟩
      else ⟨some deps0, none, cs⟩
    else ⟨none, none, cs⟩
  else if kind = "atom" then
    if 3 ≤ ch.length then
      ⟨some [((getSem cs 2).provide, ∅), (∅, (getSem cs 2).depend)], none, cs⟩
    else ⟨none, none, cs⟩
  else if kind = "literal" then
    if ch.length = 1 then
      ⟨some ((cs.map (fun s => s.dependencies)).flatten), none, cs⟩
    else if 1 < ch.length then
      let atom_id := firstNonNot ch
      if 3 ≤ ch.length ∧ atom_id ≤ ch.length - 3 then
        if childKind ch (atom_id + 1) = "cmp" then
          let ls := getSem cs atom_id
          let rs := getSem cs (atom_id + 2)
          let vars := ls.vars ∪ rs.vars
          let cmpChild := ch[atom_id + 1]?.getD (CST.mk 0 (0, 0) "" "" [])
          let comparison0 :=
            match cmpChild.children.head? with
            | some c => c.kind
            | none => cmpChild.kind
          let comparison :=
            if 4 ≤ ch.length then negate_comparison_operator comparison0
            else comparison0
          if comparison ≠ "EQ" then ⟨some [(∅, vars)], none, cs⟩
          else
            ⟨some [(ls.provide, rs.vars), (rs.provide, ls.vars),
              (∅, ls.depend ∪ rs.depend)], none, cs⟩
        else ⟨none, none, cs⟩
      else ⟨some [(∅, (getSem cs atom_id).vars)], none, cs⟩
    else ⟨none, none, cs⟩
  else if kind = "conjunction" then
    if 3 ≤ ch.length then
      ⟨some [(∅, b.vars)], some ((getSem cs 0).vars \ (getSem cs 2).vars), cs⟩
    else ⟨none, none, cs⟩
  else if kind = "bodycomma" then
    if 2 ≤ ch.length then ⟨some (bodyDeps ch cs), none, cs⟩ else ⟨none, none, cs⟩
  else if kind = "bodydot" then
    if 1 ≤ ch.length then ⟨some (bodyDeps ch cs), none, cs⟩ else ⟨none, none, cs⟩
  else if kind = "litvec" ∨ kind = "optcondition" ∨ kind = "optimizelitvec"
      ∨ kind = "optimizecond" then
    ⟨some ((cs.map (fun s => s.dependencies)).flatten), none, cs⟩
  else ⟨none, none, cs⟩

/-- Apply the updates of a check_dependencies visit to the node bundle. -/
def applyDepUpd (b : StatementSemantics) (u : DepUpd) : StatementSemantics :=
  let b1 :=
    match u.dependencies with
    | some d => { b with dependencies := d }
    | none => b
  match u.global_vars with
  | some g => { b1 with global_vars := g }
  | none => b1

/-- check_dependencies from statement_semantic.rs: the updated node bundle
and the children bundles with the global-vars overrides that the Rust code
performs as side effects on child entries. Within one visit their reader is
the subsequent check_global_vars of the same node; the cache persistence of
those side effects is modelled by ovWrites in the incremental pass. -/
def check_dependencies (kind : String) (ch : List CST)
    (cs : List StatementSemantics) (b : StatementSemantics) :
    StatementSemantics × List StatementSemantics :=
  (applyDepUpd b (check_dependencies_core kind ch cs b),
    (check_dependencies_core kind ch cs b).children)

/-- check_global_vars from statement_semantic.rs, applied to the children
bundles as left by check_dependencies. -/
def check_global_vars (kind : String) (cs : List StatementSemantics)
    (b : StatementSemantics) : StatementSemantics :=
  if kind = "literal" then { b with global_vars := b.vars }
  else if kind = "conjunction" ∨ kind = "lubodyaggregate"
      ∨ kind = "altheadaggrelemvec" ∨ kind = "disjunction" then b
  else if kind = "source_file" then b
  else { b with global_vars := unionFold (cs.map (fun s => s.global_vars)) }

/-- SpecialLiteralSemantics::new from tree_utils.rs: local dependency pairs
of a conditional literal or aggregate element, together with the names of
the variable occurrences below the node. -/
def specialLiteralNew (id : Nat) (kind : String) (ch : List CST)
    (cs : List StatementSemantics) : SpecialLiteralSemantics :=
  let local_dependency : List DepPair :=
    if kind = "conjunction" then
      if ch.length = 3 then
        (∅, (getSem cs 0).vars) :: (getSem cs 2).dependencies
      else []
    else if kind = "bodyaggrelem" then
      if 2 ≤ ch.length then
        (∅, (getSem cs 0).vars) :: (getSem cs 1).dependencies
      else []
    else []
  { id := id
    kind :=
      if kind = "conjunction" then LiteralType.Conjunction
      else if kind = "bodyaggrelem" then LiteralType.AggregateElement
      else if kind = "altheadaggrelemvec" then LiteralType.AggregateElement
      else if kind = "disjunction" then LiteralType.Disjunction
      else LiteralType.Normal
    local_dependency := local_dependency
    variable_locations := varOccsList ch }

/-- check_special_literals from statement_semantic.rs. -/
def check_special_literals (kind : String) (id : Nat) (ch : List CST)
    (cs : List StatementSemantics) (b : StatementSemantics) : StatementSemantics :=
  if kind = "conjunction" ∨ kind = "altheadaggrelemvec" ∨ kind = "disjunction" then b
  else if kind = "bodyaggrelem" then
    { b with special_literals := [specialLiteralNew id kind ch cs] }
  else if kind = "source_file" then b
  else { b with special_literals := (cs.map (fun s => s.special_literals)).flatten }

/-- One visit of checks_on_only_affected_area from encoding_semantic.rs: the
term pass (TermSemantic::on_node) followed by the statement pass
(StatementSemantics::on_node) with its six checks in order, starting from
the current cached bundle b of the node. -/
def onNodeS (id : Nat) (span : Nat × Nat) (kind text : String) (ch : List CST)
    (cs : List StatementSemantics) (b : StatementSemantics) : StatementSemantics :=
  let b1 :=
    if kind = "dec" ∨ kind = "NUMBER" ∨ kind = "term" ∨ kind = "VARIABLE"
        ∨ kind = "identifier"
    then { b with term := TermSemantic.from_node kind text span ch cs } else b
  let b2 := check_for_variables kind text cs b1
  let b3 := check_provide kind text ch cs b2
  let b4 := check_depend kind ch cs b3
  let r5 := check_dependencies kind ch cs b4
  let b6 := check_global_vars kind r5.2 r5.1
  check_special_literals kind id ch cs b6

mutual
/-- The attribute bundle of a node under a from-scratch post-order pass:
children first, then the node itself starting from a fresh bundle. -/
def semOf : CST → StatementSemantics
  | .mk i sp k tx ch => onNodeS i sp k tx ch (semList ch) StatementSemantics.new
def semList : List CST → List StatementSemantics
  | [] => []
  | t :: ts => semOf t :: semList ts
end

mutual
/-- The statement nodes of the tree in walk order, as visited by the cursor
loop of statement_analysis in statement_analysis.rs. -/
def statementsOf : CST → List CST
  | .mk i sp k tx ch =>
    if k = "statement" then CST.mk i sp k tx ch :: statementsOfList ch
    else statementsOfList ch
def statementsOfList : List CST → List CST
  | [] => []
  | t :: ts => statementsOf t ++ statementsOfList ts
end

/-- The diagnostics of check_safety_of_statement for one statement node,
with its attributes taken from the post-order attribute pass. -/
def statementDiags (t : CST) : List String :=
  check_safety_of_statement (semOf t).dependencies (semOf t).global_vars
    (semOf t).special_literals (varOccs t)

/-- The statement loop of statement_analysis from statement_analysis.rs: the
problem counter is compared against the limit before each statement and the
walk stops once the limit is reached; create_diagnostic itself increments
the counter for every diagnostic but performs no limit check. -/
def runStatements (maxP : Nat) : Nat → List CST → List String
  | _, [] => []
  | cur, s :: rest =>
    if maxP ≤ cur then []
    else
      statementDiags s ++ runStatements maxP (cur + (statementDiags s).length) rest

/-- statement_analysis from statement_analysis.rs over a whole document. -/
def statement_analysis (maxP : Nat) (doc : CST) : List String :=
  runStatements maxP 0 (statementsOf doc)

/-- Leaf node helper: ids and spans are irrelevant to the attribute pass and
are zeroed in the concrete trees below. -/
def leafN (k tx : String) : CST := CST.mk 0 (0, 0) k tx []

def nodeN (k : String) (ch : List CST) : CST := CST.mk 0 (0, 0) k "" ch

def termVar (v : String) : CST := nodeN "term" [leafN "VARIABLE" v]

def termNum (n : String) : CST := nodeN "term" [leafN "NUMBER" n]

def argvecOf (t : CST) : CST := nodeN "argvec" [nodeN "termvec" [t]]

def atomOf (name : String) (t : CST) : CST :=
  nodeN "atom"
    [leafN "identifier" name, leafN "LPAREN" "(", argvecOf t, leafN "RPAREN" ")"]

def litOf (a : CST) : CST := nodeN "literal" [a]

/-- Parse tree of a(X) :- a(X*0). -/
def stmtXmul0 : CST :=
  nodeN "statement"
    [litOf (atomOf "a" (termVar "X")), leafN "IF" ":-",
      nodeN "bodydot"
        [litOf (atomOf "a"
          (nodeN "term" [termVar "X", leafN "MUL" "*", termNum "0"])),
          leafN "DOT" "."]]

def docXmul0 : CST := nodeN "source_file" [stmtXmul0]

/-- Parse tree of a(X) :- a(X+1). -/
def stmtXplus1 : CST :=
  nodeN "statement"
    [litOf (atomOf "a" (termVar "X")), leafN "IF" ":-",
      nodeN "bodydot"
        [litOf (atomOf "a"
          (nodeN "term" [termVar "X", leafN "ADD" "+", termNum "1"])),
          leafN "DOT" "."]]

def docXplus1 : CST := nodeN "source_file" [stmtXplus1]

/-- TermSemantics::evaluate from diagnostics/tree_utils.rs (the parallel
draft of the evaluator, over i64 value sets). Its Div arm filters out zero
divisors but then inserts the difference s_i - s_j, not the quotient. The
i64 wrap-around of Add, Sub and Mul is not modelled; every value used on
this definition in this development is far below the i64 bounds. -/
def tree_utils_evaluate (a b : Finset Int) (op : TermOperator) : Finset Int :=
  match op with
  | .Add => (a ×ˢ b).image (fun p => p.1 + p.2)
  | .Sub => (a ×ˢ b).image (fun p => p.1 - p.2)
  | .Mul => (a ×ˢ b).image (fun p => p.1 * p.2)
  | .Div => ((a ×ˢ b).filter (fun p => p.2 ≠ 0)).image (fun p => p.1 - p.2)
  | _ => ∅

/-- Parse tree of a(X,Y). -/
def stmtXY : CST :=
  nodeN "statement"
    [litOf (nodeN "atom"
      [leafN "identifier" "a", leafN "LPAREN" "(",
        nodeN "argvec"
          [nodeN "termvec" [termVar "X", leafN "COMMA" ",", termVar "Y"]],
        leafN "RPAREN" ")"]),
      leafN "DOT" "."]

def docXY : CST := nodeN "source_file" [stmtXY]

/-- The largest number of diagnostics any single statement of the document
emits. -/
def maxStatementEmission : List CST → Nat
  | [] => 0
  | s :: rest => max (statementDiags s).length (maxStatementEmission rest)

/-- The constant term c * 0 with an identifier as the other operand: both
the term and the identifier provide the empty set, so the claimed
equivalence (provide passed on iff the constant has no zero) fails in the
degenerate direction. -/
def cIdentTerm : CST := nodeN "term" [leafN "identifier" "c"]

def cTimesZero : CST :=
  nodeN "term" [cIdentTerm, leafN "MUL" "*", termNum "0"]

/-- Parse tree of the doubly negated comparison literal not not Y = X. -/
def notNotYeqX : CST :=
  nodeN "literal"
    [leafN "NOT" "not", leafN "NOT" "not", termVar "Y",
      nodeN "cmp" [leafN "EQ" "="], termVar "X"]

/-! ## The predicate index (predicate_semantics.rs) -/

/-- PredicateOccurenceLocation: where in a statement a predicate occurs. -/
inductive PLoc where
  | Head
  | Body
  | Condition
deriving DecidableEq

/-- PredicateOccurenceSemantics: the node id, byte range and location of one
recorded predicate occurrence. -/
structure POcc where
  node_id : Nat
  range : Nat × Nat
  location : PLoc
deriving DecidableEq

/-- The two maps of PredicateSemantics. predicates, a map from (name, arity)
keys to sets of occurrences, is flattened to the list of (key, occurrence)
pairs in insertion order (the same pairs the DashMap of HashSets holds,
without an order); predicates_arity is an association list whose insert
prepends, so a lookup sees the latest insertion first, exactly the DashMap
overwrite. -/
structure PredState where
  predicates : List ((String × Nat) × POcc)
  predicates_arity : List (Nat × Nat)
deriving DecidableEq

/-- PredicateSemantics::new. -/
def PredState.fresh : PredState := ⟨[], []⟩

/-- get_predicates_arity_for_node: the stored arity of the node id, or 0
when there is no entry for it. -/
def get_predicates_arity_for_node (s : PredState) (i : Nat) : Nat :=
  (s.predicates_arity.lookup i).getD 0

/-- insert_predicate_for_node, flattened: record one more (key, occurrence)
pair. -/
def insert_predicate_for_node (s : PredState) (key : String × Nat)
    (v : POcc) : PredState :=
  { s with predicates := s.predicates ++ [(key, v)] }

/-- The parent-walk of PredicateSemantics::on_node: the location starts as
Head and every ancestor, visited nearest first, overwrites it when its kind
is bodydot or optcondition. anc lists the ancestor kinds nearest first. -/
def locLoop (anc : List String) : PLoc :=
  anc.foldl
    (fun loc k =>
      if k = "bodydot" then PLoc.Body
      else if k = "optcondition" then PLoc.Condition
      else loc)
    PLoc.Head

mutual

/-- PredicateSemantics::on_node applied along the post-order walk of
analyze_tree: the children are visited first, then the node itself. anc
holds the kinds of the strict ancestors of the current node, nearest
first. An atom or term node with at least three children whose first child
is an identifier records an occurrence under (identifier text, arity of
child 2 plus one); termvec and argvec nodes store the sum of their
children's stored arities, COMMA nodes store 1. -/
def predGo (anc : List String) (s : PredState) : CST → PredState
  | .mk i sp k _tx ch =>
    let s1 := predGoList (k :: anc) s ch
    if (k = "atom" ∨ k = "term") ∧ 3 ≤ ch.length
        ∧ childKind ch 0 = "identifier" then
      insert_predicate_for_node s1
        ((ch[0]?.map CST.text).getD "",
          get_predicates_arity_for_node s1 ((ch[2]?.map CST.id).getD 0) + 1)
        ⟨i, sp, locLoop anc⟩
    else if k = "termvec" ∨ k = "argvec" then
      { s1 with predicates_arity :=
          (i, (ch.map (fun c => get_predicates_arity_for_node s1 c.id)).sum)
            :: s1.predicates_arity }
    else if k = "COMMA" then
      { s1 with predicates_arity := (i, 1) :: s1.predicates_arity }
    else s1

def predGoList (anc : List String) (s : PredState) : List CST → PredState
  | [] => s
  | c :: rest => predGoList anc (predGo anc s c) rest

end

/-- One full analysis pass of the predicate analyzer on a tree: the startup
of PredicateSemantics replaces predicates by a fresh map — and only it,
predicates_arity persists — then the post-order walk runs from the root,
which has no ancestors. -/
def runPredicatePass (s : PredState) (t : CST) : PredState :=
  predGo [] { s with predicates := [] } t

mutual

/-- The arity entry a node contributes under a fresh arity map: termvec and
argvec sum their children's contributions, COMMA contributes 1, every
other kind has no entry (0). -/
def nodeArityVal : CST → Nat
  | .mk _ _ k _ ch =>
    if k = "termvec" ∨ k = "argvec" then sumArityList ch
    else if k = "COMMA" then 1
    else 0

def sumArityList : List CST → Nat
  | [] => 0
  | c :: rest => nodeArityVal c + sumArityList rest

end

mutual

/-- The predicate index a full pass builds from a state whose arity map is
fresh for the tree: one entry per atom or term node with an identifier
child and an argument vector, in post-order, located by the parent-walk. -/
def predIndex (anc : List String) : CST → List ((String × Nat) × POcc)
  | .mk i sp k _tx ch =>
    predIndexList (k :: anc) ch ++
      (if (k = "atom" ∨ k = "term") ∧ 3 ≤ ch.length
          ∧ childKind ch 0 = "identifier" then
        [(((ch[0]?.map CST.text).getD "",
            (ch[2]?.map nodeArityVal).getD 0 + 1),
          ⟨i, sp, locLoop anc⟩)]
      else [])

def predIndexList (anc : List String) : List CST → List ((String × Nat) × POcc)
  | [] => []
  | c :: rest => predIndex anc c ++ predIndexList anc rest

end

mutual

/-- All nodes of a tree: the node itself and, recursively, the nodes of its
children. -/
def nodesOf : CST → List CST
  | .mk i sp k tx ch => CST.mk i sp k tx ch :: nodesList ch

def nodesList : List CST → List CST
  | [] => []
  | c :: rest => nodesOf c ++ nodesList rest

end

def idsOf (t : CST) : List Nat := (nodesOf t).map CST.id

def idsOfList (l : List CST) : List Nat := (nodesList l).map CST.id

/-- Spec-modelled (written from the claim's words, for comparison with the
code's locLoop): the first, i.e. nearest, ancestor kind among the listed
ones decides the location — optcondition gives Condition, bodydot or
bodycomma gives Body — and Head when no such ancestor exists. -/
def claimedLocation : List String → PLoc
  | [] => PLoc.Head
  | k :: rest =>
    if k = "optcondition" then PLoc.Condition
    else if k = "bodydot" ∨ k = "bodycomma" then PLoc.Body
    else claimedLocation rest

/-- The first kind of the list the code's parent-walk reacts to (bodycomma
is not among them), as an optional location. -/
def firstLocMatch : List String → Option PLoc
  | [] => none
  | k :: rest =>
    if k = "bodydot" then some PLoc.Body
    else if k = "optcondition" then some PLoc.Condition
    else firstLocMatch rest

def locOr : Option PLoc → Option PLoc → Option PLoc
  | some a, _ => some a
  | none, b => b

/-- Parse tree of a(Y) :- {X : c(X)}. — the atom c(X) sits inside an
optcondition which itself sits inside the rule body. -/
def docCond : CST :=
  nodeN "source_file"
    [nodeN "statement"
      [litOf (atomOf "a" (termVar "Y")),
       leafN "IF" ":-",
       nodeN "bodydot"
         [nodeN "literal"
            [nodeN "lubodyaggregate"
              [nodeN "bodyaggregate"
                 [leafN "LBRACE" "\x7b",
                  nodeN "bodyaggrelemvec"
                    [nodeN "bodyaggrelem"
                      [nodeN "termvec" [termVar "X"],
                       nodeN "optcondition"
                         [leafN "COLON" ":",
                          nodeN "litvec"
                            [nodeN "literal" [atomOf "c" (termVar "X")]]]]],
                  leafN "RBRACE" "\x7d"]]],
          leafN "DOT" "."]]]

/-- The ancestor kinds of the atom c(X) in docCond, nearest first. -/
def ancAtomC : List String :=
  ["literal", "litvec", "optcondition", "bodyaggrelem", "bodyaggrelemvec",
   "bodyaggregate", "lubodyaggregate", "literal", "bodydot", "statement",
   "source_file"]

/-- Parse tree of a(X). with explicit node ids and byte spans. -/
def docA1 : CST :=
  CST.mk 1 (0, 5) "source_file" ""
    [CST.mk 2 (0, 5) "statement" ""
      [CST.mk 3 (0, 4) "literal" ""
        [CST.mk 4 (0, 4) "atom" ""
          [CST.mk 5 (0, 1) "identifier" "a" [],
           CST.mk 6 (1, 2) "LPAREN" "(" [],
           CST.mk 7 (2, 3) "argvec" ""
             [CST.mk 8 (2, 3) "termvec" ""
               [CST.mk 9 (2, 3) "term" ""
                 [CST.mk 10 (2, 3) "VARIABLE" "X" []]]],
           CST.mk 11 (3, 4) "RPAREN" ")" []]],
       CST.mk 12 (4, 5) "DOT" "." []]]

/-- Parse tree of the same program after inserting one leading blank: every
byte span is shifted by one while the node ids are unchanged (the
incremental reparse keeps the nodes). -/
def docA2 : CST :=
  CST.mk 1 (1, 6) "source_file" ""
    [CST.mk 2 (1, 6) "statement" ""
      [CST.mk 3 (1, 5) "literal" ""
        [CST.mk 4 (1, 5) "atom" ""
          [CST.mk 5 (1, 2) "identifier" "a" [],
           CST.mk 6 (2, 3) "LPAREN" "(" [],
           CST.mk 7 (3, 4) "argvec" ""
             [CST.mk 8 (3, 4) "termvec" ""
               [CST.mk 9 (3, 4) "term" ""
                 [CST.mk 10 (3, 4) "VARIABLE" "X" []]]],
           CST.mk 11 (4, 5) "RPAREN" ")" []]],
       CST.mk 12 (5, 6) "DOT" "." []]]

/-- A state holding leftovers of earlier passes: a recorded predicate and a
stale arity entry for a node id that no longer exists. -/
def staleState : PredState :=
  ⟨[(("junk", 3), ⟨77, (0, 9), PLoc.Body⟩)], [(999, 5)]⟩

/-- Parse tree of a :- b. — both atoms are bare identifiers without an
argument list. -/
def docAimpB : CST :=
  nodeN "source_file"
    [nodeN "statement"
      [nodeN "literal" [nodeN "atom" [leafN "identifier" "a"]],
       leafN "IF" ":-",
       nodeN "bodydot"
         [nodeN "literal" [nodeN "atom" [leafN "identifier" "b"]],
          leafN "DOT" "."]]]

/-- The vars write of check_for_variables, when it performs one (the other
fields of the bundle are never read). -/
def varsO (k t : String) (cs : List StatementSemantics) :
    Option (Finset String) :=
  if k = "VARIABLE" then some {t}
  else if k = "source_file" then none
  else some (unionFold (cs.map (fun s => s.vars)))

/-- The term write of the term pass, when it performs one. -/
def termO (k t : String) (sp : Nat × Nat) (ch : List CST)
    (cs : List StatementSemantics) : Option TermSemantic :=
  if k = "dec" ∨ k = "NUMBER" ∨ k = "term" ∨ k = "VARIABLE" ∨ k = "identifier"
  then some (TermSemantic.from_node k t sp ch cs) else none

/-- The provide write of check_provide, when it performs one. -/
def provO (k t : String) (ch : List CST) (cs : List StatementSemantics) :
    Option (Finset String) :=
  if k = "NUMBER" ∨ k = "identifier" then none
  else if k = "VARIABLE" then some {t}
  else if k = "term" then
    if ch.length = 1 then some (unionFold (cs.map (fun s => s.provide)))
    else if 3 ≤ ch.length then
      if childKind ch 1 = "LPAREN" then
        some (unionFold (cs.map (fun s => s.provide)))
      else if childKind ch 1 = "ADD" ∨ childKind ch 1 = "SUB" then
        if isEvaluable (getSem cs 0) then some (getSem cs 2).provide
        else if isEvaluable (getSem cs 2) then some (getSem cs 0).provide
        else none
      else if childKind ch 1 = "MUL" then
        if isEvaluable (getSem cs 0) ∧ 0 ∉ (getSem cs 0).term.value then
          some (getSem cs 2).provide
        else if isEvaluable (getSem cs 2) ∧ 0 ∉ (getSem cs 2).term.value then
          some (getSem cs 0).provide
        else none
      else none
    else none
  else if k = "termvec" then some (unionFold (cs.map (fun s => s.provide)))
  else if k = "argvec" then
    if ch.length = 1 then some (unionFold (cs.map (fun s => s.provide)))
    else if ch.length = 3 ∧ childKind ch 1 = "SEM" then
      some ((getSem cs 0).provide ∩ (getSem cs 2).provide)
    else none
  else none

/-- The depend write of check_depend, when it performs one, as a function of
the vars (v) and provide (p) values it reads. -/
def depO (k : String) (ch : List CST) (cs : List StatementSemantics)
    (v p : Finset String) : Option (Finset String) :=
  if k = "termvec" then some (unionFold (cs.map (fun s => s.depend)) \ p)
  else if k = "argvec" then
    if ch.length = 1 then some (unionFold (cs.map (fun s => s.depend)))
    else if ch.length = 3 ∧ childKind ch 1 = "SEM" then
      some (((getSem cs 0).depend ∪ (getSem cs 2).depend) \ p)
    else none
  else if k = "term" then
    if ch.length = 1 then some (unionFold (cs.map (fun s => s.depend)))
    else if 3 ≤ ch.length then
      if childKind ch 1 = "LPAREN" then
        some (unionFold (cs.map (fun s => s.depend)))
      else some (v \ p)
    else none
  else if k = "source_file" then none
  else some (unionFold (cs.map (fun s => s.depend)))

/-- check_dependencies_core as a function of the vars value it reads (the
only field of the node bundle it looks at). -/
def coreAt (k : String) (ch : List CST) (cs : List StatementSemantics)
    (v : Finset String) : DepUpd :=
  check_dependencies_core k ch cs { StatementSemantics.new with vars := v }

/-- The global-vars write of check_global_vars, when it performs one, as a
function of the vars value (v) it reads. -/
def gvO (k : String) (cs2 : List StatementSemantics) (v : Finset String) :
    Option (Finset String) :=
  if k = "literal" then some v
  else if k = "conjunction" ∨ k = "lubodyaggregate"
      ∨ k = "altheadaggrelemvec" ∨ k = "disjunction" then none
  else if k = "source_file" then none
  else some (unionFold (cs2.map (fun s => s.global_vars)))

/-- The special-literals write of check_special_literals, when it performs
one. -/
def slO (k : String) (id : Nat) (ch : List CST)
    (cs : List StatementSemantics) : Option (List SpecialLiteralSemantics) :=
  if k = "conjunction" ∨ k = "altheadaggrelemvec" ∨ k = "disjunction" then none
  else if k = "bodyaggrelem" then some [specialLiteralNew id k ch cs]
  else if k = "source_file" then none
  else some ((cs.map (fun s => s.special_literals)).flatten)

/-! ## The incremental analysis pass (encoding_semantic.rs, document.rs) -/

/-- The statement_semantics map of EncodingSemantics, flattened to an
association list: an insert prepends, a lookup returns the most recent
entry for the id. -/
abbrev SemCache := List (Nat × StatementSemantics)

def lookupC (cache : SemCache) (i : Nat) : Option StatementSemantics :=
  cache.lookup i

/-- get_statement_semantics_for_node: the cached bundle, or a fresh one. -/
def getSemCache (cache : SemCache) (i : Nat) : StatementSemantics :=
  (lookupC cache i).getD StatementSemantics.new

/-- ranges.find(start_byte, end_byte).any(...): some dirty interval
intersects the byte span of the node. -/
def overlapsDirty (dirty : List (Nat × Nat)) (sp : Nat × Nat) : Bool :=
  dirty.any (fun d => decide (d.1 < sp.2) && decide (sp.1 < d.2))

/-- The dirty guard of EncodingSemantics::on_node: on the first full check
(no changed ranges) every node is recomputed; otherwise a node is
recomputed when it overlaps a changed range or has no cached bundle. -/
def recomputeNode (dirty : Option (List (Nat × Nat))) (cache : SemCache)
    (sp : Nat × Nat) (i : Nat) : Bool :=
  match dirty with
  | none => true
  | some d => overlapsDirty d sp || (lookupC cache i).isNone

/-- The child positions on which a visit of check_dependencies calls
update_global_vars_for_node: child 1 of a show or external statement, the
weight child 3 (and tuple child 4 when present) of a weak constraint, and
the tuple child 1 (when present) and weight child 0 of a minelemlist or
maxelemlist node. (For a WIF statement with fewer than four children the
Rust child(3).unwrap() panics; the model reads a default bundle.) -/
def ovIdx (k : String) (ch : List CST) : List Nat :=
  if k = "statement" then
    if 1 ≤ ch.length then
      if (childKind ch 0 = "SHOW" ∨ childKind ch 0 = "EXTERNAL")
          ∧ 2 ≤ ch.length then [1]
      else if (childKind ch 0 = "IF" ∨ childKind ch 0 = "WIF")
          ∧ 2 ≤ ch.length then
        if childKind ch 0 = "WIF" then
          if 5 ≤ ch.length then [3, 4] else [3]
        else []
      else []
    else []
  else if k = "minelemlist" ∨ k = "maxelemlist" then
    if 2 ≤ ch.length then if 3 ≤ ch.length then [1, 0] else [0] else []
  else []

/-- The update_global_vars_for_node calls a visit of check_dependencies
performs on child node entries, as (child id, new global-vars value) pairs;
the value is the vars field of the child bundle read before the write.
Unlike the overrides folded into DepUpd.children (whose only same-visit
reader is check_global_vars), these writes persist in the
statement_semantics cache across passes. -/
def ovWrites (k : String) (ch : List CST) (cs : List StatementSemantics) :
    List (Nat × Finset String) :=
  (ovIdx k ch).map (fun j => ((ch[j]?.map CST.id).getD 0, (getSem cs j).vars))

mutual

/-- The statement/term analyzers of EncodingSemantics::on_node along the
post-order walk of analyze_tree: the children are processed first; then,
when the dirty guard fires, the node's bundle is recomputed from the
children's current cached bundles (starting from its own cached bundle) and
stored, and the update_global_vars_for_node writes that check_dependencies
performs on child entries are stored as well. -/
def incrNode (dirty : Option (List (Nat × Nat))) (cache : SemCache) :
    CST → SemCache
  | .mk i sp k tx ch =>
    let c1 := incrList dirty cache ch
    if recomputeNode dirty c1 sp i then
      (i, onNodeS i sp k tx ch (ch.map (fun c => getSemCache c1 c.id))
        (getSemCache c1 i)) ::
      ((ovWrites k ch (ch.map (fun c => getSemCache c1 c.id))).map
        (fun w => (w.1, { getSemCache c1 w.1 with global_vars := w.2 })))
      ++ c1
    else c1

def incrList (dirty : Option (List (Nat × Nat))) (cache : SemCache) :
    List CST → SemCache
  | [] => cache
  | c :: rest => incrList dirty (incrNode dirty cache c) rest

end

/-- EncodingSemantics::cleanup: every id that was present before the pass
(old_node_ids_encountered) and was not visited during it (the walk visits
exactly the ids of the current tree) is removed from the map. -/
def encCleanup (oldIds treeIds : List Nat) (cache : SemCache) : SemCache :=
  cache.filter
    (fun e => !(decide (e.1 ∈ oldIds) && !decide (e.1 ∈ treeIds)))

/-- One incremental analysis pass followed by its cleanup. -/
def incrRun (dirty : Option (List (Nat × Nat))) (cache : SemCache)
    (oldIds : List Nat) (t : CST) : SemCache :=
  encCleanup oldIds (idsOf t) (incrNode dirty cache t)

/-- The term X, second child of the show statement below. -/
def termShowX : CST :=
  CST.mk 23 (6, 7) "term" "" [CST.mk 24 (6, 7) "VARIABLE" "X" []]

/-- Parse tree of the statement #show X. -/
def stmtShow : CST :=
  CST.mk 21 (0, 8) "statement" ""
    [CST.mk 22 (0, 5) "SHOW" "#show" [], termShowX,
     CST.mk 25 (7, 8) "DOT" "." []]

def docShow : CST := CST.mk 20 (0, 8) "source_file" "" [stmtShow]

/-- A cache left by an earlier full pass over docShow in which the term
child's id has since been renumbered by the parser (the id 23 is fresh):
the statement and the root keep their correct bundles. -/
def showCache : SemCache := [(21, semOf stmtShow), (20, semOf docShow)]

theorem safetyPass_length_le (l : List DepPair) (s : Finset String) :
    (safetyPass l s).1.length ≤ l.length := by
  induction l generalizing s with
  | nil => simp [safetyPass]
  | cons pd rest ih =>
    obtain ⟨p, d⟩ := pd
    by_cases h : d ⊆ s
    · simpa [safetyPass, h] using Nat.le_succ_of_le (ih (s ∪ p))
    · simpa [safetyPass, h] using ih s

theorem safetyPass_stable (l : List DepPair) (s : Finset String)
    (h : (safetyPass l s).1.length = l.length) : safetyPass l s = (l, s) := by
  induction l generalizing s with
  | nil => simp [safetyPass]
  | cons pd rest ih =>
    obtain ⟨p, d⟩ := pd
    by_cases hd : d ⊆ s
    · exfalso
      have hle := safetyPass_length_le rest (s ∪ p)
      simp only [safetyPass, hd, if_pos, List.length_cons] at h
      omega
    · simp only [safetyPass, hd, if_neg, not_false_iff, List.length_cons] at h ⊢
      have := ih s (by omega)
      simp [this]

theorem safeSetLoopF_at_length :
    ∀ (f : Nat) (dep : List DepPair) (safe : Finset String), dep.length < f →
      safeSetLoopF f dep safe dep.length = specFixedPointLoop dep safe := by
  intro f
  induction f with
  | zero => intro dep safe h; omega
  | succ f ih =>
    intro dep safe h
    rw [safeSetLoopF, specFixedPointLoop.eq_def]
    by_cases hl : (safetyPass dep safe).1.length = dep.length
    · simp [hl]
    · simp only [hl, if_neg, not_false_iff]
      have hle := safetyPass_length_le dep safe
      exact ih _ _ (by omega)

theorem safeSetLoopF_zero (f : Nat) (dep : List DepPair) (safe : Finset String)
    (hf : dep.length + 1 < f) :
    safeSetLoopF f dep safe 0 = specFixedPointLoop dep safe := by
  match f, hf with
  | f + 1, hf =>
    rw [safeSetLoopF]
    by_cases h0 : (safetyPass dep safe).1.length = 0
    · rw [if_pos h0, specFixedPointLoop.eq_def]
      by_cases hd : (safetyPass dep safe).1.length = dep.length
      · rw [if_pos hd]
      · rw [if_neg hd]
        have h1 : (safetyPass dep safe).1 = [] := List.length_eq_zero.mp h0
        rw [specFixedPointLoop.eq_def, h1]
        simp [safetyPass]
    · rw [if_neg h0]
      by_cases hd : (safetyPass dep safe).1.length = dep.length
      · have hstab := safetyPass_stable dep safe hd
        rw [hstab]
        exact safeSetLoopF_at_length f dep safe (by omega)
      · have hle := safetyPass_length_le dep safe
        rw [safeSetLoopF_at_length f _ _ (by omega)]
        conv_rhs => rw [specFixedPointLoop.eq_def]
        rw [if_neg hd]

theorem calculate_safe_set_global (dependencies : List DepPair)
    (global_vars : Finset String) :
    calculate_safe_set dependencies global_vars true =
      (specSafeSet dependencies, varsMentioned dependencies) := by
  have h := safeSetLoopF_zero (dependencies.length + 2) dependencies ∅ (by omega)
  simp [calculate_safe_set, specSafeSet, h]

theorem count_filter_eq (locs : List String) (v name : String) :
    (locs.filter (fun o => o = v)).count name =
      if name = v then locs.count name else 0 := by
  induction locs with
  | nil => simp
  | cons a t ih =>
    by_cases hav : a = v
    · subst hav
      by_cases hn : name = a
      · subst hn
        simp [List.count_cons, ih]
      · simp [List.filter_cons, List.count_cons, hn, ih]
    · by_cases hn : name = a
      · subst hn
        simp [List.filter_cons, hav, List.count_cons, ih]
      · simp only [List.filter_cons, List.count_cons]
        by_cases hv : name = v
        · simp [hav, hv, ih, hn]
        · simp [hav, hv, ih, hn]

theorem count_flatMap_filter (l : List String) (locs : List String)
    (hn : l.Nodup) (name : String) :
    (l.flatMap (fun v => locs.filter (fun o => o = v))).count name =
      if name ∈ l then locs.count name else 0 := by
  induction l with
  | nil => simp
  | cons v t ih =>
    have hv : v ∉ t := (List.nodup_cons.mp hn).1
    have ht : t.Nodup := (List.nodup_cons.mp hn).2
    simp only [List.flatMap_cons, List.count_append, ih ht, count_filter_eq]
    by_cases h1 : name = v
    · subst h1
      simp [hv]
    · simp [h1, List.mem_cons]

theorem finsetDiagList_count (s : Finset String) (locs : List String)
    (name : String) :
    (finsetDiagList s locs).count name =
      if name ∈ s then locs.count name else 0 := by
  rw [finsetDiagList,
    count_flatMap_filter _ _ (List.Nodup.filter _ locs.nodup_dedup)]
  by_cases hs : name ∈ s
  · by_cases hl : name ∈ locs
    · simp [List.mem_filter, List.mem_dedup, hs, hl]
    · have h0 : locs.count name = 0 := by
        simpa using List.count_eq_zero_of_not_mem hl
      simp [List.mem_filter, List.mem_dedup, hs, hl, h0]
  · simp [List.mem_filter, hs]

/-- C1. For every statement (arbitrary dependency list, global variables,
special literals and occurrence list), the global safe set computed by
calculate_safe_set on the pairs restricted to the global variables equals the
safe set of the fixed-point procedure of the spec (start empty, add provides
of pairs whose depends are contained in safe, stop when a pass discards
nothing); the reported global unsafe set is exactly V minus safe, where V is
the union of the variables of the restricted pairs; and the global emission
loop produces exactly one UnsafeVariable diagnostic per occurrence of each
unsafe name (and none for safe names). -/
theorem c1_safety_fixed_point (deps : List DepPair) (gv : Finset String)
    (specials : List SpecialLiteralSemantics) (occ : List String) :
    (calculate_safe_set (get_dependencies_only_occuring_in_set deps gv) gv true).1
        = specSafeSet (get_dependencies_only_occuring_in_set deps gv)
    ∧ (calculate_safe_set (get_dependencies_only_occuring_in_set deps gv) gv true).2
        = varsMentioned (get_dependencies_only_occuring_in_set deps gv)
    ∧ globalDiagList deps gv occ =
        finsetDiagList
          (varsMentioned (get_dependencies_only_occuring_in_set deps gv) \
            specSafeSet (get_dependencies_only_occuring_in_set deps gv)) occ
    ∧ check_safety_of_statement deps gv specials occ =
        localDiagList deps gv specials ++ globalDiagList deps gv occ
    ∧ ∀ name,
        (globalDiagList deps gv occ).count name =
          if name ∈ varsMentioned (get_dependencies_only_occuring_in_set deps gv) \
              specSafeSet (get_dependencies_only_occuring_in_set deps gv)
          then occ.count name else 0 := by
  have hr := calculate_safe_set_global (get_dependencies_only_occuring_in_set deps gv) gv
  refine ⟨by rw [hr], by rw [hr], ?_, rfl, ?_⟩
  · rw [globalDiagList, hr]
  · intro name
    rw [globalDiagList, hr]
    exact finsetDiagList_count _ _ _

theorem semList_eq_map (ch : List CST) : semList ch = ch.map semOf := by
  induction ch with
  | nil => rfl
  | cons t ts ih => simp [semList, ih]

theorem varOccsList_eq_map (ch : List CST) :
    varOccsList ch = (ch.map varOccs).flatten := by
  induction ch with
  | nil => rfl
  | cons t ts ih => simp [varOccsList, ih]

example : statement_analysis 100 docXmul0 = ["X", "X"] := by decide

example : statement_analysis 100 docXplus1 = [] := by decide

/-- C4. The live evaluator (term_semantic.rs) does satisfy the claim: an
element is in the result of a division exactly when it is the integer
quotient of a pair of operand values with nonzero divisor. The parallel
draft in diagnostics/tree_utils.rs does not: at the constant term 6 / 3 it
returns the set containing 3 (it inserts the difference 6 - 3 under the
zero-divisor guard), while the claimed value set is the singleton 2. -/
theorem c4_division_evaluation :
    (∀ (a b : Finset Nat) (x : Nat),
        x ∈ TermSemantic.evaluate a b TermOperator.Div ↔
          ∃ p ∈ a, ∃ q ∈ b, q ≠ 0 ∧ x = p / q)
    ∧ tree_utils_evaluate {6} {3} TermOperator.Div = {3}
    ∧ TermSemantic.evaluate {6} {3} TermOperator.Div = {2}
    ∧ ({3} : Finset Int) ≠ ({2} : Finset Int) := by
  refine ⟨?_, by decide, by decide, by decide⟩
  intro a b x
  simp only [TermSemantic.evaluate, Finset.mem_image, Finset.mem_filter,
    Finset.mem_product]
  constructor
  · rintro ⟨⟨p, q⟩, ⟨⟨hp, hq⟩, hq0⟩, rfl⟩
    exact ⟨p, hp, q, hq, hq0, rfl⟩
  · rintro ⟨p, hp, q, hq, hq0, rfl⟩
    exact ⟨(p, q), ⟨⟨hp, hq⟩, hq0⟩, rfl⟩

/-- C9 counterexample. Under the overflow-checked profile (the one cargo
test builds, where usize arithmetic panics on overflow), evaluating the
subtraction of the constant terms 1 and 2 panics (modelled as none) instead
of returning a result set; under the release profile it wraps to 2^64 - 1
rather than evaluating the subtraction. -/
theorem c9_sub_underflow_panics :
    evaluateChecked {1} {2} TermOperator.Sub = none
    ∧ TermSemantic.evaluate {1} {2} TermOperator.Sub = {usizeW - 1} := by
  constructor
  · decide
  · decide

/-- C9 amended. Division is always checked-total (zero divisors are
skipped), and a subtraction whose pairs never underflow is checked-total and
agrees with the wrapping (release) evaluation; the underflowing pair 1 - 2
is exactly where the two profiles part ways (see the counterexample). -/
theorem c9_evaluate_total_when_no_underflow (a b : Finset Nat)
    (hb : ∀ x ∈ a, x < usizeW)
    (hs : ∀ x ∈ a, ∀ y ∈ b, y ≤ x) :
    evaluateChecked a b TermOperator.Div =
        some (TermSemantic.evaluate a b TermOperator.Div)
    ∧ evaluateChecked a b TermOperator.Sub =
        some (TermSemantic.evaluate a b TermOperator.Sub) := by
  constructor
  · rfl
  · rw [evaluateChecked, if_pos hs]
    congr 1
    rw [TermSemantic.evaluate]
    refine Finset.image_congr ?_
    rintro ⟨p, q⟩ hpq
    rw [Finset.mem_coe, Finset.mem_product] at hpq
    have hp : p < usizeW := hb p hpq.1
    have hq : q ≤ p := hs p hpq.1 q hpq.2
    have hqW : q < usizeW := lt_of_le_of_lt hq hp
    simp only
    rw [Nat.mod_eq_of_lt hp, Nat.mod_eq_of_lt hqW]
    have h1 : p + (usizeW - q) = usizeW + (p - q) := by omega
    rw [h1, Nat.add_mod_left, Nat.mod_eq_of_lt (by omega)]

/-- The checked evaluation agrees with the wrapping one at the concrete
operand sets a = 5 and 3, b = 2, which satisfy the no-underflow bounds. -/
theorem c9_evaluate_total_witness :
    evaluateChecked {5, 3} {2} TermOperator.Div =
        some (TermSemantic.evaluate {5, 3} {2} TermOperator.Div)
    ∧ evaluateChecked {5, 3} {2} TermOperator.Sub =
        some (TermSemantic.evaluate {5, 3} {2} TermOperator.Sub) :=
  c9_evaluate_total_when_no_underflow {5, 3} {2} (by decide) (by decide)

/-- C6 counterexample. With the problem limit set to one, the single
statement a(X,Y). emits two UnsafeVariable diagnostics: the limit is only
consulted before a statement is analyzed (statement_analysis), while
create_diagnostic appends and increments without any check, so a single
statement overshoots the cap. -/
theorem c6_cap_overshoot :
    (statement_analysis 1 docXY).length = 2
    ∧ ¬ (statement_analysis 1 docXY).length ≤ 1 := by
  constructor
  · decide
  · decide

theorem runStatements_stop (maxP cur : Nat) (l : List CST) (h : maxP ≤ cur) :
    runStatements maxP cur l = [] := by
  cases l with
  | nil => rfl
  | cons s rest => rw [runStatements, if_pos h]

theorem runStatements_length_le (maxP : Nat) (l : List CST) :
    ∀ cur, (runStatements maxP cur l).length ≤
      (maxP - cur) + maxStatementEmission l := by
  induction l with
  | nil => intro cur; simp [runStatements]
  | cons s rest ih =>
    intro cur
    by_cases h : maxP ≤ cur
    · rw [runStatements, if_pos h]
      simp
    · rw [runStatements, if_neg h]
      rw [List.length_append]
      by_cases h2 : maxP ≤ cur + (statementDiags s).length
      · rw [runStatements_stop maxP _ rest h2]
        simp only [List.length_nil, Nat.add_zero, maxStatementEmission]
        omega
      · have := ih (cur + (statementDiags s).length)
        simp only [maxStatementEmission]
        omega

/-- C6 amended. The problem limit is enforced at statement granularity: once
the running count is at or beyond the limit, no further statement is
analyzed and nothing more is emitted; but the statement under analysis when
the limit is crossed is not truncated, so the total emission of a pass is
only bounded by the limit plus the largest single-statement emission (and
can exceed the limit itself, see the counterexample). -/
theorem c6_cap_statement_granularity (maxP : Nat) (doc : CST) :
    (∀ cur stmts, maxP ≤ cur → runStatements maxP cur stmts = [])
    ∧ (statement_analysis maxP doc).length ≤
        maxP + maxStatementEmission (statementsOf doc) := by
  constructor
  · intro cur stmts h
    exact runStatements_stop maxP cur stmts h
  · have := runStatements_length_le maxP (statementsOf doc) 0
    simpa [statement_analysis] using this

theorem check_depend_provide (k : String) (ch : List CST)
    (cs : List StatementSemantics) (b : StatementSemantics) :
    (check_depend k ch cs b).provide = b.provide := by
  unfold check_depend
  split_ifs <;> rfl

theorem applyDepUpd_provide (b : StatementSemantics) (u : DepUpd) :
    (applyDepUpd b u).provide = b.provide := by
  unfold applyDepUpd
  rcases u with ⟨_ | d, _ | g, cs⟩ <;> rfl

theorem applyDepUpd_dependencies (b : StatementSemantics) (u : DepUpd) :
    (applyDepUpd b u).dependencies = u.dependencies.getD b.dependencies := by
  unfold applyDepUpd
  rcases u with ⟨_ | d, _ | g, cs⟩ <;> rfl

theorem check_dependencies_provide (k : String) (ch : List CST)
    (cs : List StatementSemantics) (b : StatementSemantics) :
    (check_dependencies k ch cs b).1.provide = b.provide :=
  applyDepUpd_provide b (check_dependencies_core k ch cs b)

theorem check_dependencies_dependencies (k : String) (ch : List CST)
    (cs : List StatementSemantics) (b : StatementSemantics) :
    (check_dependencies k ch cs b).1.dependencies =
      (check_dependencies_core k ch cs b).dependencies.getD b.dependencies :=
  applyDepUpd_dependencies b (check_dependencies_core k ch cs b)

theorem check_global_vars_provide (k : String) (cs : List StatementSemantics)
    (b : StatementSemantics) :
    (check_global_vars k cs b).provide = b.provide := by
  unfold check_global_vars
  split_ifs <;> rfl

theorem check_special_literals_provide (k : String) (id : Nat) (ch : List CST)
    (cs : List StatementSemantics) (b : StatementSemantics) :
    (check_special_literals k id ch cs b).provide = b.provide := by
  unfold check_special_literals
  split_ifs <;> rfl

theorem check_global_vars_dependencies (k : String) (cs : List StatementSemantics)
    (b : StatementSemantics) :
    (check_global_vars k cs b).dependencies = b.dependencies := by
  unfold check_global_vars
  split_ifs <;> rfl

theorem check_special_literals_dependencies (k : String) (id : Nat) (ch : List CST)
    (cs : List StatementSemantics) (b : StatementSemantics) :
    (check_special_literals k id ch cs b).dependencies = b.dependencies := by
  unfold check_special_literals
  split_ifs <;> rfl

/-- The provide field of a node bundle is the one computed by check_provide:
the later checks of the pass do not write it. -/
theorem onNodeS_provide (i : Nat) (sp : Nat × Nat) (k tx : String)
    (ch : List CST) (cs : List StatementSemantics) (b : StatementSemantics) :
    (onNodeS i sp k tx ch cs b).provide =
      (check_provide k tx ch cs
        (check_for_variables k tx cs
          (if k = "dec" ∨ k = "NUMBER" ∨ k = "term" ∨ k = "VARIABLE"
              ∨ k = "identifier"
           then { b with term := TermSemantic.from_node k tx sp ch cs }
           else b))).provide := by
  unfold onNodeS
  rw [check_special_literals_provide, check_global_vars_provide,
    check_dependencies_provide, check_depend_provide]

theorem semOf_mk (i : Nat) (sp : Nat × Nat) (k tx : String) (ch : List CST) :
    semOf (CST.mk i sp k tx ch) =
      onNodeS i sp k tx ch (semList ch) StatementSemantics.new := by
  rw [semOf]

/-- C5 counterexample. In the multiplication c * 0, exactly one operand is a
constant and its value set contains 0, yet the provide set of the term (the
default empty set) is equal to the provide set of the other operand (also
empty): the biconditional of the claim fails at this input. -/
theorem c5_mul_zero_iff_fails :
    (semOf (termNum "0")).term.kind = TermType.Constant
    ∧ ¬ (semOf cIdentTerm).term.kind = TermType.Constant
    ∧ (0 : Nat) ∈ (semOf (termNum "0")).term.value
    ∧ (semOf cTimesZero).provide = (semOf cIdentTerm).provide
    ∧ ¬ (((semOf cTimesZero).provide = (semOf cIdentTerm).provide) ↔
          (0 : Nat) ∉ (semOf (termNum "0")).term.value) := by
  refine ⟨by decide, by decide, by decide, by decide, ?_⟩
  intro hiff
  exact absurd (by decide : (0 : Nat) ∈ (semOf (termNum "0")).term.value)
    (hiff.mp (by decide))

/-- C5 amended. The provide set of a multiplication term is passed on from
the other operand when one operand is a constant whose value set does not
contain 0 (the left operand is tested first); otherwise no update happens
and the provide set keeps its default empty value, so the biconditional of
the claim holds except in the degenerate case where the other operand also
provides nothing. The scenario part holds as claimed: a(X) :- a(X*0). emits
an UnsafeVariable diagnostic for both occurrences of X, and
a(X) :- a(X+1). emits none. -/
theorem c5_mul_zero_does_not_bind (i : Nat) (sp : Nat × Nat) (tx : String)
    (a op b : CST) (hop : op.kind = "MUL") :
    ((semOf (CST.mk i sp "term" tx [a, op, b])).provide =
      (if (semOf a).term.kind = TermType.Constant ∧ 0 ∉ (semOf a).term.value
       then (semOf b).provide
       else if (semOf b).term.kind = TermType.Constant ∧ 0 ∉ (semOf b).term.value
       then (semOf a).provide
       else ∅))
    ∧ statement_analysis 100 docXmul0 = ["X", "X"]
    ∧ 1 ≤ (statement_analysis 100 docXmul0).length
    ∧ statement_analysis 100 docXplus1 = [] := by
  refine ⟨?_, by decide, by decide, by decide⟩
  rw [semOf_mk, onNodeS_provide]
  simp only [semList]
  simp only [check_provide, check_for_variables, childKind, getSem, isEvaluable,
    List.getElem?_cons_zero, List.getElem?_cons_succ, Option.map_some',
    Option.getD_some, List.length_cons, List.length_nil, hop]
  simp only [String.reduceEq, or_self, or_false, false_or, if_false, if_true,
    ite_false, ite_true, Nat.reduceLeDiff, OfNat.ofNat_ne_one, reduceCtorEq]
  split_ifs <;> first | rfl | omega

theorem firstNonNotAux_replicate (n : Nat) (x t1 : CST) (rest : List CST)
    (hx : x.kind = "NOT") (h1 : t1.kind ≠ "NOT") :
    firstNonNotAux (List.replicate n x ++ t1 :: rest) = some n := by
  induction n with
  | zero => simp [firstNonNotAux, h1]
  | succ n ih =>
    rw [List.replicate_succ, List.cons_append, firstNonNotAux]
    simp [hx, ih]

/-- C3 counterexample. For the comparison literal not not Y = X (two
negations in front of an equality), the dependency computation negates the
operator once (child_count at least 4), so the literal is treated as a
disequality and yields the single pair (empty, all variables) instead of
the equality shape the claim requires for an even number of negations. -/
theorem c3_double_not_not_cancelled :
    (semOf notNotYeqX).dependencies = [(∅, {"Y", "X"})]
    ∧ (semOf notNotYeqX).dependencies ≠
        [({"Y"}, {"X"}), ({"X"}, {"Y"}), (∅, (∅ : Finset String))] := by
  constructor
  · decide
  · decide

/-- The dependencies field of a node bundle is the one computed by
check_dependencies. -/
theorem onNodeS_dependencies (i : Nat) (sp : Nat × Nat) (k tx : String)
    (ch : List CST) (cs : List StatementSemantics) (b : StatementSemantics) :
    (onNodeS i sp k tx ch cs b).dependencies =
      (check_dependencies k ch cs
        (check_depend k ch cs
          (check_provide k tx ch cs
            (check_for_variables k tx cs
              (if k = "dec" ∨ k = "NUMBER" ∨ k = "term" ∨ k = "VARIABLE"
                  ∨ k = "identifier"
               then { b with term := TermSemantic.from_node k tx sp ch cs }
               else b))))).1.dependencies := by
  unfold onNodeS
  rw [check_special_literals_dependencies, check_global_vars_dependencies]

/-- C3 amended. For a comparison literal preceded by n NOT tokens, the
dependency computation negates the comparison operator once as soon as at
least one NOT is present (the check is child_count at least four), with no
cancellation of double negation: the equality dependency shape is produced
exactly when the once-negated operator (for n at least 1) or the original
operator (for n = 0) is EQ. In particular for n = 2 the operator used is
the flipped one, not the original (see the counterexample). -/
theorem c3_not_flips_once (n i : Nat) (sp : Nat × Nat) (tx op : String)
    (t1 t2 : CST) (h1 : t1.kind ≠ "NOT") :
    (semOf (CST.mk i sp "literal" tx
        (List.replicate n (leafN "NOT" "not") ++
          [t1, nodeN "cmp" [leafN op ""], t2]))).dependencies =
      (if (if 1 ≤ n then negate_comparison_operator op else op) = "EQ"
       then [((semOf t1).provide, (semOf t2).vars),
             ((semOf t2).provide, (semOf t1).vars),
             (∅, (semOf t1).depend ∪ (semOf t2).depend)]
       else [(∅, (semOf t1).vars ∪ (semOf t2).vars)]) := by
  have hlen : (List.replicate n (leafN "NOT" "not") ++
      [t1, nodeN "cmp" [leafN op ""], t2]).length = n + 3 := by
    simp
  have hfa : firstNonNot (List.replicate n (leafN "NOT" "not") ++
      [t1, nodeN "cmp" [leafN op ""], t2]) = n := by
    rw [firstNonNot,
      firstNonNotAux_replicate n (leafN "NOT" "not") t1
        [nodeN "cmp" [leafN op ""], t2] rfl h1]
    rfl
  have hgn : (List.replicate n (leafN "NOT" "not") ++
      [t1, nodeN "cmp" [leafN op ""], t2])[n]? = some t1 := by
    rw [List.getElem?_append_right (by simp)]
    simp
  have hgn1 : (List.replicate n (leafN "NOT" "not") ++
      [t1, nodeN "cmp" [leafN op ""], t2])[n + 1]? =
        some (nodeN "cmp" [leafN op ""]) := by
    rw [List.getElem?_append_right (by simp)]
    simp
  have hgn2 : (List.replicate n (leafN "NOT" "not") ++
      [t1, nodeN "cmp" [leafN op ""], t2])[n + 2]? = some t2 := by
    rw [List.getElem?_append_right (by simp)]
    simp
  have e1 : (n + 3 = 1) = False := eq_false (by omega)
  have e2 : (1 < n + 3) = True := eq_true (by omega)
  have e3 : ((3 ≤ n + 3) ∧ (n ≤ n + 3 - 3)) = True := eq_true ⟨by omega, by omega⟩
  have e5 : (4 ≤ n + 3) = (1 ≤ n) := propext (by omega)
  simp only [nodeN, leafN] at hlen hfa hgn hgn1 hgn2
  rw [semOf_mk, onNodeS_dependencies, check_dependencies_dependencies]
  simp only [check_dependencies_core, nodeN, leafN, String.reduceEq, if_false,
    if_true, ite_true, ite_false, hlen, hfa, e1, e2, e3, e5]
  simp only [childKind, getSem, semList_eq_map, List.getElem?_map, hgn, hgn1,
    hgn2, Option.map_some', Option.getD_some, CST.kind, CST.children,
    List.head?, String.reduceEq, if_true, ite_true, ite_not]
  split_ifs <;> rfl

theorem c3_not_flips_once_witness :
    (termVar "Y").kind ≠ "NOT"
    ∧ (semOf (CST.mk 0 (0, 0) "literal" ""
        (List.replicate 2 (leafN "NOT" "not") ++
          [termVar "Y", nodeN "cmp" [leafN "EQ" ""], termVar "X"]))).dependencies =
      (if (if 1 ≤ 2 then negate_comparison_operator "EQ" else "EQ") = "EQ"
       then [((semOf (termVar "Y")).provide, (semOf (termVar "X")).vars),
             ((semOf (termVar "X")).provide, (semOf (termVar "Y")).vars),
             (∅, (semOf (termVar "Y")).depend ∪ (semOf (termVar "X")).depend)]
       else [(∅, (semOf (termVar "Y")).vars ∪ (semOf (termVar "X")).vars)]) :=
  ⟨by decide,
    c3_not_flips_once 2 0 (0, 0) "" "EQ" (termVar "Y") (termVar "X") (by decide)⟩

theorem c5_mul_zero_does_not_bind_witness :
    (leafN "MUL" "*").kind = "MUL"
    ∧ ((semOf (CST.mk 0 (0, 0) "term" ""
          [termNum "2", leafN "MUL" "*", termVar "X"])).provide =
        (if (semOf (termNum "2")).term.kind = TermType.Constant
              ∧ 0 ∉ (semOf (termNum "2")).term.value
         then (semOf (termVar "X")).provide
         else if (semOf (termVar "X")).term.kind = TermType.Constant
              ∧ 0 ∉ (semOf (termVar "X")).term.value
         then (semOf (termNum "2")).provide
         else ∅))
      ∧ statement_analysis 100 docXmul0 = ["X", "X"]
      ∧ 1 ≤ (statement_analysis 100 docXmul0).length
      ∧ statement_analysis 100 docXplus1 = [] :=
  ⟨rfl, c5_mul_zero_does_not_bind 0 (0, 0) "" (termNum "2")
    (leafN "MUL" "*") (termVar "X") rfl⟩

theorem firstLocMatch_append (l1 l2 : List String) :
    firstLocMatch (l1 ++ l2) = locOr (firstLocMatch l1) (firstLocMatch l2) := by
  induction l1 with
  | nil => rfl
  | cons k rest ih =>
    rw [List.cons_append, firstLocMatch, firstLocMatch]
    split_ifs <;> simp [locOr, ih]

theorem locLoop_general (anc : List String) : ∀ init : PLoc,
    anc.foldl (fun loc k => if k = "bodydot" then PLoc.Body
      else if k = "optcondition" then PLoc.Condition else loc) init
    = (firstLocMatch anc.reverse).getD init := by
  induction anc with
  | nil => intro init; rfl
  | cons k rest ih =>
    intro init
    rw [List.foldl_cons, ih, List.reverse_cons, firstLocMatch_append]
    cases h : firstLocMatch rest.reverse with
    | some a => rfl
    | none =>
      simp only [locOr, firstLocMatch]
      split_ifs <;> rfl

/-- C7 amended. The parent-walk starts at Head and overwrites the location
at every matching ancestor while walking from the nearest ancestor to the
root, so the recorded location is decided by the outermost matching
ancestor — the first match of the reversed ancestor list — not by the
nearest one; and the walk reacts only to bodydot and optcondition, never to
bodycomma. -/
theorem c7_outermost_ancestor_wins (anc : List String) :
    locLoop anc = (firstLocMatch anc.reverse).getD PLoc.Head
    ∧ locLoop ["bodycomma"] = PLoc.Head :=
  ⟨locLoop_general anc PLoc.Head, rfl⟩

/-- C7 counterexample. In a(Y) :- {X : c(X)}. the atom c(X) sits inside an
optcondition (its nearest matching ancestor), which itself sits inside the
bodydot of the rule: the claim requires location Condition, but the pass
records Body, because the outermost matching ancestor wins the overwrite
loop. -/
theorem c7_condition_inside_body :
    ((runPredicatePass PredState.fresh docCond).predicates.map
        (fun e => (e.1, e.2.location)))
      = [(("a", 1), PLoc.Head), (("c", 1), PLoc.Body)]
    ∧ claimedLocation ancAtomC = PLoc.Condition
    ∧ locLoop ancAtomC = PLoc.Body
    ∧ PLoc.Body ≠ PLoc.Condition := by
  refine ⟨by decide, by decide, by decide, by decide⟩

mutual

theorem predGo_arity_pos (c : CST) (anc : List String) (s : PredState) :
    ∀ e ∈ (predGo anc s c).predicates, e ∈ s.predicates ∨ 1 ≤ e.1.2 := by
  cases c with
  | mk i sp k tx ch =>
    intro e he
    simp only [predGo] at he
    split_ifs at he with h1 h2 h3
    · simp only [insert_predicate_for_node, List.mem_append,
        List.mem_singleton] at he
      rcases he with he | he
      · exact predGoList_arity_pos ch (k :: anc) s e he
      · right
        rw [he]
        exact Nat.le_add_left 1 _
    · exact predGoList_arity_pos ch (k :: anc) s e he
    · exact predGoList_arity_pos ch (k :: anc) s e he
    · exact predGoList_arity_pos ch (k :: anc) s e he

theorem predGoList_arity_pos (l : List CST) (anc : List String) (s : PredState) :
    ∀ e ∈ (predGoList anc s l).predicates, e ∈ s.predicates ∨ 1 ≤ e.1.2 := by
  cases l with
  | nil => intro e he; exact Or.inl he
  | cons c rest =>
    intro e he
    rcases predGoList_arity_pos rest anc (predGo anc s c) e he with h | h
    · exact predGo_arity_pos c anc s e h
    · exact Or.inr h

end

/-- C10. Every key recorded in the predicate index has arity at least 1:
an occurrence is only inserted for atom or term nodes with at least three
children whose first child is an identifier, with arity the stored arity of
child 2 plus one; in particular the zero-arity atoms of a :- b. are never
recorded, so no pass — and hence no go-to-definition or find-references
lookup of the map — ever sees a zero-arity key. -/
theorem c10_no_zero_arity (s : PredState) (t : CST) :
    (∀ e ∈ (runPredicatePass s t).predicates, 1 ≤ e.1.2)
    ∧ (runPredicatePass PredState.fresh docAimpB).predicates = [] := by
  constructor
  · intro e he
    rcases predGo_arity_pos t [] { s with predicates := [] } e he with h | h
    · simp at h
    · exact h
  · decide

/-- C8 counterexample. Inserting one leading blank before a(X). shifts
every byte span by one; rerunning the analysis pass on the edited tree
rebuilds the predicates map with the same (name, arity) keys but shifted
occurrence ranges, so the index is not invariant under the whitespace-only
edit. -/
theorem c8_whitespace_edit_changes_index :
    ((runPredicatePass (runPredicatePass PredState.fresh docA1) docA2).predicates ≠
        (runPredicatePass PredState.fresh docA1).predicates)
    ∧ ((runPredicatePass (runPredicatePass PredState.fresh docA1) docA2).predicates.map
          Prod.fst =
        (runPredicatePass PredState.fresh docA1).predicates.map Prod.fst)
    ∧ (((runPredicatePass (runPredicatePass PredState.fresh docA1)
            docA2).predicates.map (fun e => e.2.range)) ≠
        ((runPredicatePass PredState.fresh docA1).predicates.map
          (fun e => e.2.range))) := by
  refine ⟨by decide, by decide, by decide⟩

theorem sumArityList_eq_map (l : List CST) :
    sumArityList l = (l.map nodeArityVal).sum := by
  induction l with
  | nil => rfl
  | cons c rest ih => rw [sumArityList, List.map_cons, List.sum_cons, ih]

theorem self_mem_nodesOf (c : CST) : c ∈ nodesOf c := by
  cases c with
  | mk i sp k tx ch =>
    rw [nodesOf]
    exact List.mem_cons_self _ _

theorem id_mem_idsOf (c : CST) : c.id ∈ idsOf c :=
  List.mem_map_of_mem CST.id (self_mem_nodesOf c)

theorem lookup_cons_self (k : Nat) (v : Nat) (l : List (Nat × Nat)) :
    List.lookup k ((k, v) :: l) = some v := by
  simp [List.lookup]

theorem lookup_cons_ne (j k : Nat) (v : Nat) (l : List (Nat × Nat))
    (h : j ≠ k) : List.lookup j ((k, v) :: l) = List.lookup j l := by
  have hb : (j == k) = false := beq_eq_false_iff_ne.mpr h
  simp [List.lookup, hb]

mutual

theorem predGo_spec (c : CST) (anc : List String) (s : PredState)
    (hnd : (idsOf c).Nodup)
    (hfresh : ∀ j ∈ idsOf c, s.predicates_arity.lookup j = none) :
    ((predGo anc s c).predicates = s.predicates ++ predIndex anc c)
    ∧ (∀ j, j ∉ idsOf c →
        (predGo anc s c).predicates_arity.lookup j =
          s.predicates_arity.lookup j)
    ∧ ((predGo anc s c).predicates_arity.lookup c.id).getD 0 = nodeArityVal c := by
  cases c with
  | mk i sp k tx ch =>
    have hids : idsOf (CST.mk i sp k tx ch) = i :: idsOfList ch := by
      simp [idsOf, idsOfList, nodesOf, CST.id]
    rw [hids] at hnd hfresh
    rw [hids]
    simp only [CST.id]
    have hni : i ∉ idsOfList ch := (List.nodup_cons.mp hnd).1
    have hndl : (idsOfList ch).Nodup := (List.nodup_cons.mp hnd).2
    have hfl : ∀ j ∈ idsOfList ch, s.predicates_arity.lookup j = none :=
      fun j hj => hfresh j (List.mem_cons_of_mem _ hj)
    obtain ⟨hP, hA, hV⟩ := predGoList_spec ch (k :: anc) s hndl hfl
    by_cases h1 : (k = "atom" ∨ k = "term") ∧ 3 ≤ ch.length
        ∧ childKind ch 0 = "identifier"
    · have hlt : 2 < ch.length := by omega
      have hc2 : ch[2]? = some ch[2] := List.getElem?_eq_getElem hlt
      have hmem : ch[2] ∈ ch := List.getElem_mem hlt
      have harity : get_predicates_arity_for_node (predGoList (k :: anc) s ch)
          ((ch[2]?.map CST.id).getD 0) = nodeArityVal ch[2] := by
        rw [hc2, get_predicates_arity_for_node]
        simp only [Option.map_some', Option.getD_some]
        exact hV ch[2] hmem
      refine ⟨?_, ?_, ?_⟩
      · rw [predGo, if_pos h1, predIndex, if_pos h1]
        simp only [insert_predicate_for_node]
        rw [hP, harity, hc2]
        simp [List.append_assoc]
      · intro j hj
        rw [predGo, if_pos h1]
        simp only [insert_predicate_for_node]
        exact hA j (fun h => hj (List.mem_cons_of_mem _ h))
      · rw [predGo, if_pos h1]
        simp only [insert_predicate_for_node]
        rw [hA i hni, hfresh i (List.mem_cons_self _ _)]
        rcases h1.1 with hk | hk <;> subst hk <;> simp [nodeArityVal]
    · by_cases h2 : k = "termvec" ∨ k = "argvec"
      · refine ⟨?_, ?_, ?_⟩
        · rw [predGo, if_neg h1, if_pos h2, predIndex, if_neg h1]
          simpa using hP
        · intro j hj
          rw [predGo, if_neg h1, if_pos h2]
          simp only
          rw [lookup_cons_ne j i _ _ (fun h => hj (h ▸ List.mem_cons_self _ _)),
            hA j (fun h => hj (List.mem_cons_of_mem _ h))]
        · rw [predGo, if_neg h1, if_pos h2]
          simp only
          rw [lookup_cons_self]
          simp only [Option.getD_some, nodeArityVal, if_pos h2]
          rw [sumArityList_eq_map]
          congr 1
          refine List.map_congr_left (fun c' hc' => ?_)
          rw [get_predicates_arity_for_node]
          exact hV c' hc'
      · by_cases h3 : k = "COMMA"
        · refine ⟨?_, ?_, ?_⟩
          · rw [predGo, if_neg h1, if_neg h2, if_pos h3, predIndex, if_neg h1]
            simpa using hP
          · intro j hj
            rw [predGo, if_neg h1, if_neg h2, if_pos h3]
            simp only
            rw [lookup_cons_ne j i _ _ (fun h => hj (h ▸ List.mem_cons_self _ _)),
              hA j (fun h => hj (List.mem_cons_of_mem _ h))]
          · rw [predGo, if_neg h1, if_neg h2, if_pos h3]
            simp only
            rw [lookup_cons_self]
            simp [nodeArityVal, h2, h3]
        · refine ⟨?_, ?_, ?_⟩
          · rw [predGo, if_neg h1, if_neg h2, if_neg h3, predIndex, if_neg h1]
            simpa using hP
          · intro j hj
            rw [predGo, if_neg h1, if_neg h2, if_neg h3]
            exact hA j (fun h => hj (List.mem_cons_of_mem _ h))
          · rw [predGo, if_neg h1, if_neg h2, if_neg h3]
            rw [hA i hni, hfresh i (List.mem_cons_self _ _)]
            simp [nodeArityVal, h2, h3]

theorem predGoList_spec (l : List CST) (anc : List String) (s : PredState)
    (hnd : (idsOfList l).Nodup)
    (hfresh : ∀ j ∈ idsOfList l, s.predicates_arity.lookup j = none) :
    ((predGoList anc s l).predicates = s.predicates ++ predIndexList anc l)
    ∧ (∀ j, j ∉ idsOfList l →
        (predGoList anc s l).predicates_arity.lookup j =
          s.predicates_arity.lookup j)
    ∧ ∀ c ∈ l, ((predGoList anc s l).predicates_arity.lookup c.id).getD 0
        = nodeArityVal c := by
  cases l with
  | nil =>
    refine ⟨by simp [predGoList, predIndexList], fun j _ => rfl, by simp⟩
  | cons c rest =>
    have hsplit : idsOfList (c :: rest) = idsOf c ++ idsOfList rest := by
      simp [idsOfList, idsOf, nodesList]
    rw [hsplit] at hnd hfresh
    rw [hsplit]
    rw [List.nodup_append] at hnd
    obtain ⟨hnd1, hnd2, hdisj⟩ := hnd
    have hf1 : ∀ j ∈ idsOf c, s.predicates_arity.lookup j = none :=
      fun j hj => hfresh j (List.mem_append_left _ hj)
    obtain ⟨hP1, hA1, hV1⟩ := predGo_spec c anc s hnd1 hf1
    have hf2 : ∀ j ∈ idsOfList rest,
        (predGo anc s c).predicates_arity.lookup j = none := by
      intro j hj
      rw [hA1 j (fun hjc => hdisj hjc hj)]
      exact hfresh j (List.mem_append_right _ hj)
    obtain ⟨hP2, hA2, hV2⟩ := predGoList_spec rest anc (predGo anc s c) hnd2 hf2
    refine ⟨?_, ?_, ?_⟩
    · rw [predGoList, hP2, hP1, predIndexList, List.append_assoc]
    · intro j hj
      rw [predGoList, hA2 j (fun h => hj (List.mem_append_right _ h)),
        hA1 j (fun h => hj (List.mem_append_left _ h))]
    · intro c' hc'
      rcases List.mem_cons.mp hc' with rfl | hc'
      · rw [predGoList, hA2 c'.id (fun h => hdisj (id_mem_idsOf c') h)]
        exact hV1
      · exact hV2 c' hc'

end

/-- C8 amended. The predicate index is rebuilt fresh on each pass in the
sense that startup resets the predicates map and the pass rebuilds it from
the tree alone: whatever predicates were recorded before, and whatever
stale arity entries persist for ids not in the tree (predicates_arity is
never reset), the pass ends with exactly the compositional index of the
current tree. The whitespace-invariance half of the claim fails, because
the index entries carry byte ranges (see the counterexample). -/
theorem c8_rebuilt_fresh (s : PredState) (t : CST)
    (hnd : (idsOf t).Nodup)
    (hfresh : ∀ j ∈ idsOf t, s.predicates_arity.lookup j = none) :
    (runPredicatePass s t).predicates = predIndex [] t := by
  have h := (predGo_spec t [] { s with predicates := [] } hnd hfresh).1
  rw [runPredicatePass, h]
  rfl

theorem c8_rebuilt_fresh_witness :
    (idsOf docA1).Nodup
    ∧ (∀ j ∈ idsOf docA1, staleState.predicates_arity.lookup j = none)
    ∧ (runPredicatePass staleState docA1).predicates = predIndex [] docA1 :=
  ⟨by decide, by decide,
    c8_rebuilt_fresh staleState docA1 (by decide) (by decide)⟩

theorem check_for_variables_keep_term (k t : String) (cs : List StatementSemantics)
    (b : StatementSemantics) :
    (check_for_variables k t cs b).term = b.term := by
  unfold check_for_variables
  simp only [apply_ite (fun s : StatementSemantics => s.term), ite_self]

theorem check_for_variables_keep_provide (k t : String) (cs : List StatementSemantics)
    (b : StatementSemantics) :
    (check_for_variables k t cs b).provide = b.provide := by
  unfold check_for_variables
  simp only [apply_ite (fun s : StatementSemantics => s.provide), ite_self]

theorem check_for_variables_keep_depend (k t : String) (cs : List StatementSemantics)
    (b : StatementSemantics) :
    (check_for_variables k t cs b).depend = b.depend := by
  unfold check_for_variables
  simp only [apply_ite (fun s : StatementSemantics => s.depend), ite_self]

theorem check_for_variables_keep_dependencies (k t : String) (cs : List StatementSemantics)
    (b : StatementSemantics) :
    (check_for_variables k t cs b).dependencies = b.dependencies := by
  unfold check_for_variables
  simp only [apply_ite (fun s : StatementSemantics => s.dependencies), ite_self]

theorem check_for_variables_keep_global_vars (k t : String) (cs : List StatementSemantics)
    (b : StatementSemantics) :
    (check_for_variables k t cs b).global_vars = b.global_vars := by
  unfold check_for_variables
  simp only [apply_ite (fun s : StatementSemantics => s.global_vars), ite_self]

theorem check_for_variables_keep_special_literals (k t : String) (cs : List StatementSemantics)
    (b : StatementSemantics) :
    (check_for_variables k t cs b).special_literals = b.special_literals := by
  unfold check_for_variables
  simp only [apply_ite (fun s : StatementSemantics => s.special_literals), ite_self]

theorem check_provide_keep_vars (k t : String) (ch : List CST)
    (cs : List StatementSemantics) (b : StatementSemantics) :
    (check_provide k t ch cs b).vars = b.vars := by
  unfold check_provide
  simp only [apply_ite (fun s : StatementSemantics => s.vars), ite_self]

theorem check_provide_keep_term (k t : String) (ch : List CST)
    (cs : List StatementSemantics) (b : StatementSemantics) :
    (check_provide k t ch cs b).term = b.term := by
  unfold check_provide
  simp only [apply_ite (fun s : StatementSemantics => s.term), ite_self]

theorem check_provide_keep_depend (k t : String) (ch : List CST)
    (cs : List StatementSemantics) (b : StatementSemantics) :
    (check_provide k t ch cs b).depend = b.depend := by
  unfold check_provide
  simp only [apply_ite (fun s : StatementSemantics => s.depend), ite_self]

theorem check_provide_keep_dependencies (k t : String) (ch : List CST)
    (cs : List StatementSemantics) (b : StatementSemantics) :
    (check_provide k t ch cs b).dependencies = b.dependencies := by
  unfold check_provide
  simp only [apply_ite (fun s : StatementSemantics => s.dependencies), ite_self]

theorem check_provide_keep_global_vars (k t : String) (ch : List CST)
    (cs : List StatementSemantics) (b : StatementSemantics) :
    (check_provide k t ch cs b).global_vars = b.global_vars := by
  unfold check_provide
  simp only [apply_ite (fun s : StatementSemantics => s.global_vars), ite_self]

theorem check_provide_keep_special_literals (k t : String) (ch : List CST)
    (cs : List StatementSemantics) (b : StatementSemantics) :
    (check_provide k t ch cs b).special_literals = b.special_literals := by
  unfold check_provide
  simp only [apply_ite (fun s : StatementSemantics => s.special_literals), ite_self]

theorem check_depend_keep_vars (k : String) (ch : List CST)
    (cs : List StatementSemantics) (b : StatementSemantics) :
    (check_depend k ch cs b).vars = b.vars := by
  unfold check_depend
  simp only [apply_ite (fun s : StatementSemantics => s.vars), ite_self]

theorem check_depend_keep_term (k : String) (ch : List CST)
    (cs : List StatementSemantics) (b : StatementSemantics) :
    (check_depend k ch cs b).term = b.term := by
  unfold check_depend
  simp only [apply_ite (fun s : StatementSemantics => s.term), ite_self]

theorem check_depend_keep_dependencies (k : String) (ch : List CST)
    (cs : List StatementSemantics) (b : StatementSemantics) :
    (check_depend k ch cs b).dependencies = b.dependencies := by
  unfold check_depend
  simp only [apply_ite (fun s : StatementSemantics => s.dependencies), ite_self]

theorem check_depend_keep_global_vars (k : String) (ch : List CST)
    (cs : List StatementSemantics) (b : StatementSemantics) :
    (check_depend k ch cs b).global_vars = b.global_vars := by
  unfold check_depend
  simp only [apply_ite (fun s : StatementSemantics => s.global_vars), ite_self]

theorem check_depend_keep_special_literals (k : String) (ch : List CST)
    (cs : List StatementSemantics) (b : StatementSemantics) :
    (check_depend k ch cs b).special_literals = b.special_literals := by
  unfold check_depend
  simp only [apply_ite (fun s : StatementSemantics => s.special_literals), ite_self]

theorem applyDepUpd_keep_vars (b : StatementSemantics) (u : DepUpd) :
    (applyDepUpd b u).vars = b.vars := by
  unfold applyDepUpd
  rcases u with ⟨_ | d, _ | g, cs2⟩ <;> rfl

theorem applyDepUpd_keep_term (b : StatementSemantics) (u : DepUpd) :
    (applyDepUpd b u).term = b.term := by
  unfold applyDepUpd
  rcases u with ⟨_ | d, _ | g, cs2⟩ <;> rfl

theorem applyDepUpd_keep_depend (b : StatementSemantics) (u : DepUpd) :
    (applyDepUpd b u).depend = b.depend := by
  unfold applyDepUpd
  rcases u with ⟨_ | d, _ | g, cs2⟩ <;> rfl

theorem applyDepUpd_keep_special_literals (b : StatementSemantics) (u : DepUpd) :
    (applyDepUpd b u).special_literals = b.special_literals := by
  unfold applyDepUpd
  rcases u with ⟨_ | d, _ | g, cs2⟩ <;> rfl

theorem applyDepUpd_global_vars (b : StatementSemantics) (u : DepUpd) :
    (applyDepUpd b u).global_vars = u.global_vars.getD b.global_vars := by
  unfold applyDepUpd
  rcases u with ⟨_ | d, _ | g, cs2⟩ <;> rfl

theorem check_dependencies_keep_vars (k : String) (ch : List CST)
    (cs : List StatementSemantics) (b : StatementSemantics) :
    (check_dependencies k ch cs b).1.vars = b.vars := by
  exact applyDepUpd_keep_vars b (check_dependencies_core k ch cs b)

theorem check_dependencies_keep_term (k : String) (ch : List CST)
    (cs : List StatementSemantics) (b : StatementSemantics) :
    (check_dependencies k ch cs b).1.term = b.term := by
  exact applyDepUpd_keep_term b (check_dependencies_core k ch cs b)

theorem check_dependencies_keep_depend (k : String) (ch : List CST)
    (cs : List StatementSemantics) (b : StatementSemantics) :
    (check_dependencies k ch cs b).1.depend = b.depend := by
  exact applyDepUpd_keep_depend b (check_dependencies_core k ch cs b)

theorem check_dependencies_keep_special_literals (k : String) (ch : List CST)
    (cs : List StatementSemantics) (b : StatementSemantics) :
    (check_dependencies k ch cs b).1.special_literals = b.special_literals := by
  exact applyDepUpd_keep_special_literals b (check_dependencies_core k ch cs b)

theorem check_dependencies_global_vars (k : String) (ch : List CST)
    (cs : List StatementSemantics) (b : StatementSemantics) :
    (check_dependencies k ch cs b).1.global_vars =
      (check_dependencies_core k ch cs b).global_vars.getD b.global_vars := by
  exact applyDepUpd_global_vars b (check_dependencies_core k ch cs b)

theorem check_global_vars_keep_vars (k : String) (cs : List StatementSemantics)
    (b : StatementSemantics) :
    (check_global_vars k cs b).vars = b.vars := by
  unfold check_global_vars
  simp only [apply_ite (fun s : StatementSemantics => s.vars), ite_self]

theorem check_global_vars_keep_term (k : String) (cs : List StatementSemantics)
    (b : StatementSemantics) :
    (check_global_vars k cs b).term = b.term := by
  unfold check_global_vars
  simp only [apply_ite (fun s : StatementSemantics => s.term), ite_self]

theorem check_global_vars_keep_depend (k : String) (cs : List StatementSemantics)
    (b : StatementSemantics) :
    (check_global_vars k cs b).depend = b.depend := by
  unfold check_global_vars
  simp only [apply_ite (fun s : StatementSemantics => s.depend), ite_self]

theorem check_global_vars_keep_special_literals (k : String) (cs : List StatementSemantics)
    (b : StatementSemantics) :
    (check_global_vars k cs b).special_literals = b.special_literals := by
  unfold check_global_vars
  simp only [apply_ite (fun s : StatementSemantics => s.special_literals), ite_self]

theorem check_special_literals_keep_vars (k : String) (id : Nat) (ch : List CST)
    (cs : List StatementSemantics) (b : StatementSemantics) :
    (check_special_literals k id ch cs b).vars = b.vars := by
  unfold check_special_literals
  simp only [apply_ite (fun s : StatementSemantics => s.vars), ite_self]

theorem check_special_literals_keep_term (k : String) (id : Nat) (ch : List CST)
    (cs : List StatementSemantics) (b : StatementSemantics) :
    (check_special_literals k id ch cs b).term = b.term := by
  unfold check_special_literals
  simp only [apply_ite (fun s : StatementSemantics => s.term), ite_self]

theorem check_special_literals_keep_depend (k : String) (id : Nat) (ch : List CST)
    (cs : List StatementSemantics) (b : StatementSemantics) :
    (check_special_literals k id ch cs b).depend = b.depend := by
  unfold check_special_literals
  simp only [apply_ite (fun s : StatementSemantics => s.depend), ite_self]

theorem check_special_literals_keep_global_vars (k : String) (id : Nat) (ch : List CST)
    (cs : List StatementSemantics) (b : StatementSemantics) :
    (check_special_literals k id ch cs b).global_vars = b.global_vars := by
  unfold check_special_literals
  simp only [apply_ite (fun s : StatementSemantics => s.global_vars), ite_self]

theorem termIte_keep_vars (c : Prop) [Decidable c] (X : TermSemantic)
    (b : StatementSemantics) :
    (if c then { b with term := X } else b).vars = b.vars := by
  split_ifs <;> rfl

theorem termIte_keep_provide (c : Prop) [Decidable c] (X : TermSemantic)
    (b : StatementSemantics) :
    (if c then { b with term := X } else b).provide = b.provide := by
  split_ifs <;> rfl

theorem termIte_keep_depend (c : Prop) [Decidable c] (X : TermSemantic)
    (b : StatementSemantics) :
    (if c then { b with term := X } else b).depend = b.depend := by
  split_ifs <;> rfl

theorem termIte_keep_dependencies (c : Prop) [Decidable c] (X : TermSemantic)
    (b : StatementSemantics) :
    (if c then { b with term := X } else b).dependencies = b.dependencies := by
  split_ifs <;> rfl

theorem termIte_keep_global_vars (c : Prop) [Decidable c] (X : TermSemantic)
    (b : StatementSemantics) :
    (if c then { b with term := X } else b).global_vars = b.global_vars := by
  split_ifs <;> rfl

theorem termIte_keep_special_literals (c : Prop) [Decidable c] (X : TermSemantic)
    (b : StatementSemantics) :
    (if c then { b with term := X } else b).special_literals = b.special_literals := by
  split_ifs <;> rfl

theorem check_for_variables_vars (k t : String) (cs : List StatementSemantics)
    (b : StatementSemantics) :
    (check_for_variables k t cs b).vars = (varsO k t cs).getD b.vars := by
  unfold check_for_variables varsO
  simp only [apply_ite (fun s : StatementSemantics => s.vars),
    apply_ite (fun o : Option (Finset String) => o.getD b.vars),
    Option.getD_some, Option.getD_none]

theorem check_provide_provide (k t : String) (ch : List CST)
    (cs : List StatementSemantics) (b : StatementSemantics) :
    (check_provide k t ch cs b).provide =
      (provO k t ch cs).getD b.provide := by
  unfold check_provide provO
  simp only [apply_ite (fun s : StatementSemantics => s.provide),
    apply_ite (fun o : Option (Finset String) => o.getD b.provide),
    Option.getD_some, Option.getD_none]

theorem check_depend_depend (k : String) (ch : List CST)
    (cs : List StatementSemantics) (b : StatementSemantics) :
    (check_depend k ch cs b).depend =
      (depO k ch cs b.vars b.provide).getD b.depend := by
  unfold check_depend depO
  simp only [apply_ite (fun s : StatementSemantics => s.depend),
    apply_ite (fun o : Option (Finset String) => o.getD b.depend),
    Option.getD_some, Option.getD_none]

theorem check_dependencies_core_at (k : String) (ch : List CST)
    (cs : List StatementSemantics) (b : StatementSemantics) :
    check_dependencies_core k ch cs b = coreAt k ch cs b.vars := by
  unfold coreAt check_dependencies_core
  rfl

theorem check_global_vars_global_vars (k : String)
    (cs2 : List StatementSemantics) (b : StatementSemantics) :
    (check_global_vars k cs2 b).global_vars =
      (gvO k cs2 b.vars).getD b.global_vars := by
  unfold check_global_vars gvO
  simp only [apply_ite (fun s : StatementSemantics => s.global_vars),
    apply_ite (fun o : Option (Finset String) => o.getD b.global_vars),
    Option.getD_some, Option.getD_none]

theorem check_special_literals_special (k : String) (id : Nat) (ch : List CST)
    (cs : List StatementSemantics) (b : StatementSemantics) :
    (check_special_literals k id ch cs b).special_literals =
      (slO k id ch cs).getD b.special_literals := by
  unfold check_special_literals slO
  simp only [apply_ite (fun s : StatementSemantics => s.special_literals),
    apply_ite
      (fun o : Option (List SpecialLiteralSemantics) =>
        o.getD b.special_literals),
    Option.getD_some, Option.getD_none]

theorem check_dependencies_snd (k : String) (ch : List CST)
    (cs : List StatementSemantics) (b : StatementSemantics) :
    (check_dependencies k ch cs b).2 =
      (coreAt k ch cs b.vars).children := by
  unfold coreAt check_dependencies check_dependencies_core
  rfl

theorem getD_getD {α : Type} (o : Option α) (x : α) :
    o.getD (o.getD x) = o.getD x := by
  cases o <;> rfl

theorem onNodeS_vars (i : Nat) (sp : Nat × Nat) (k tx : String)
    (ch : List CST) (cs : List StatementSemantics) (b : StatementSemantics) :
    (onNodeS i sp k tx ch cs b).vars = (varsO k tx cs).getD b.vars := by
  unfold onNodeS
  rw [check_special_literals_keep_vars, check_global_vars_keep_vars,
    check_dependencies_keep_vars, check_depend_keep_vars,
    check_provide_keep_vars, check_for_variables_vars, termIte_keep_vars]

theorem onNodeS_term (i : Nat) (sp : Nat × Nat) (k tx : String)
    (ch : List CST) (cs : List StatementSemantics) (b : StatementSemantics) :
    (onNodeS i sp k tx ch cs b).term = (termO k tx sp ch cs).getD b.term := by
  unfold onNodeS termO
  rw [check_special_literals_keep_term, check_global_vars_keep_term,
    check_dependencies_keep_term, check_depend_keep_term,
    check_provide_keep_term, check_for_variables_keep_term]
  split_ifs <;> rfl

theorem onNodeS_provide2 (i : Nat) (sp : Nat × Nat) (k tx : String)
    (ch : List CST) (cs : List StatementSemantics) (b : StatementSemantics) :
    (onNodeS i sp k tx ch cs b).provide =
      (provO k tx ch cs).getD b.provide := by
  unfold onNodeS
  rw [check_special_literals_provide, check_global_vars_provide,
    check_dependencies_provide, check_depend_provide,
    check_provide_provide, check_for_variables_keep_provide,
    termIte_keep_provide]

theorem onNodeS_depend (i : Nat) (sp : Nat × Nat) (k tx : String)
    (ch : List CST) (cs : List StatementSemantics) (b : StatementSemantics) :
    (onNodeS i sp k tx ch cs b).depend =
      (depO k ch cs ((varsO k tx cs).getD b.vars)
        ((provO k tx ch cs).getD b.provide)).getD b.depend := by
  unfold onNodeS
  rw [check_special_literals_keep_depend, check_global_vars_keep_depend,
    check_dependencies_keep_depend, check_depend_depend,
    check_provide_keep_vars, check_for_variables_vars, termIte_keep_vars,
    check_provide_provide, check_for_variables_keep_provide,
    termIte_keep_provide, check_provide_keep_depend,
    check_for_variables_keep_depend, termIte_keep_depend]

theorem onNodeS_deps2 (i : Nat) (sp : Nat × Nat) (k tx : String)
    (ch : List CST) (cs : List StatementSemantics) (b : StatementSemantics) :
    (onNodeS i sp k tx ch cs b).dependencies =
      (coreAt k ch cs ((varsO k tx cs).getD b.vars)).dependencies.getD
        b.dependencies := by
  unfold onNodeS
  rw [check_special_literals_dependencies, check_global_vars_dependencies,
    check_dependencies_dependencies, check_dependencies_core_at,
    check_depend_keep_vars, check_provide_keep_vars,
    check_for_variables_vars, termIte_keep_vars,
    check_depend_keep_dependencies, check_provide_keep_dependencies,
    check_for_variables_keep_dependencies, termIte_keep_dependencies]

theorem onNodeS_gv (i : Nat) (sp : Nat × Nat) (k tx : String)
    (ch : List CST) (cs : List StatementSemantics) (b : StatementSemantics) :
    (onNodeS i sp k tx ch cs b).global_vars =
      (gvO k (coreAt k ch cs ((varsO k tx cs).getD b.vars)).children
        ((varsO k tx cs).getD b.vars)).getD
        ((coreAt k ch cs ((varsO k tx cs).getD b.vars)).global_vars.getD
          b.global_vars) := by
  unfold onNodeS
  rw [check_special_literals_keep_global_vars, check_global_vars_global_vars,
    check_dependencies_snd, check_dependencies_keep_vars,
    check_dependencies_global_vars, check_dependencies_core_at,
    check_depend_keep_vars, check_provide_keep_vars,
    check_for_variables_vars, termIte_keep_vars,
    check_depend_keep_global_vars, check_provide_keep_global_vars,
    check_for_variables_keep_global_vars, termIte_keep_global_vars]

theorem onNodeS_sl (i : Nat) (sp : Nat × Nat) (k tx : String)
    (ch : List CST) (cs : List StatementSemantics) (b : StatementSemantics) :
    (onNodeS i sp k tx ch cs b).special_literals =
      (slO k i ch cs).getD b.special_literals := by
  unfold onNodeS
  rw [check_special_literals_special, check_global_vars_keep_special_literals,
    check_dependencies_keep_special_literals,
    check_depend_keep_special_literals, check_provide_keep_special_literals,
    check_for_variables_keep_special_literals, termIte_keep_special_literals]

theorem sem_eq_of_fields (a b : StatementSemantics) (h1 : a.vars = b.vars)
    (h2 : a.global_vars = b.global_vars) (h3 : a.provide = b.provide)
    (h4 : a.depend = b.depend) (h5 : a.dependencies = b.dependencies)
    (h6 : a.term = b.term) (h7 : a.special_literals = b.special_literals) :
    a = b := by
  cases a
  cases b
  simp only [StatementSemantics.mk.injEq]
  exact ⟨h1, h2, h3, h4, h5, h6, h7⟩

/-- Recomputing a node bundle on top of its own previous recomputation
changes nothing: every check either writes a value that does not depend on
the incoming bundle (or depends on it only through fields the same pass has
already rewritten), or keeps the field. -/
theorem onNodeS_idem (i : Nat) (sp : Nat × Nat) (k tx : String)
    (ch : List CST) (cs : List StatementSemantics) (b : StatementSemantics) :
    onNodeS i sp k tx ch cs (onNodeS i sp k tx ch cs b) =
      onNodeS i sp k tx ch cs b := by
  apply sem_eq_of_fields
  · rw [onNodeS_vars, onNodeS_vars, getD_getD]
  · rw [onNodeS_gv, onNodeS_vars, getD_getD, onNodeS_gv]
    cases hg : gvO k (coreAt k ch cs ((varsO k tx cs).getD b.vars)).children
        ((varsO k tx cs).getD b.vars) with
    | some g => rfl
    | none =>
      simp only [Option.getD_none]
      cases hc : (coreAt k ch cs
          ((varsO k tx cs).getD b.vars)).global_vars with
      | some g2 => rfl
      | none => rfl
  · rw [onNodeS_provide2, onNodeS_provide2, getD_getD]
  · rw [onNodeS_depend, onNodeS_vars, getD_getD, onNodeS_provide2,
      getD_getD, onNodeS_depend, getD_getD]
  · rw [onNodeS_deps2, onNodeS_vars, getD_getD, onNodeS_deps2, getD_getD]
  · rw [onNodeS_term, onNodeS_term, getD_getD]
  · rw [onNodeS_sl, onNodeS_sl, getD_getD]

theorem lookup_append_none {β : Type} (j : Nat) (l1 l2 : List (Nat × β))
    (h : List.lookup j l1 = none) :
    List.lookup j (l1 ++ l2) = List.lookup j l2 := by
  induction l1 with
  | nil => rfl
  | cons e rest ih =>
    rw [List.cons_append]
    rw [List.lookup] at h ⊢
    cases hb : (j == e.1) with
    | true => rw [hb] at h; simp at h
    | false => rw [hb] at h; exact ih h

theorem lookup_append_some {β : Type} (j : Nat) (l1 l2 : List (Nat × β))
    (v : β) (h : List.lookup j l1 = some v) :
    List.lookup j (l1 ++ l2) = some v := by
  induction l1 with
  | nil => simp [List.lookup] at h
  | cons e rest ih =>
    rw [List.cons_append]
    rw [List.lookup] at h ⊢
    cases hb : (j == e.1) with
    | true => rw [hb] at h; exact h
    | false => rw [hb] at h; exact ih h

theorem mem_of_lookup {β : Type} (j : Nat) (v : β) (l : List (Nat × β))
    (h : List.lookup j l = some v) : (j, v) ∈ l := by
  induction l with
  | nil => simp [List.lookup] at h
  | cons e rest ih =>
    rw [List.lookup] at h
    cases hb : (j == e.1) with
    | true =>
      rw [hb] at h
      have hj : j = e.1 := by simpa using hb
      have hv : e.2 = v := by simpa using h
      rw [hj, ← hv]
      exact List.mem_cons_self _ _
    | false =>
      rw [hb] at h
      exact List.mem_cons_of_mem _ (ih h)

theorem lookup_none_of_no_key {β : Type} (j : Nat) (l : List (Nat × β))
    (h : ∀ e ∈ l, e.1 ≠ j) : List.lookup j l = none := by
  induction l with
  | nil => rfl
  | cons e rest ih =>
    rw [List.lookup]
    cases hb : (j == e.1) with
    | true =>
      exact absurd (by simpa using hb : j = e.1).symm
        (h e (List.mem_cons_self _ _))
    | false => exact ih (fun e' he' => h e' (List.mem_cons_of_mem _ he'))

theorem lookupg_cons_self {β : Type} (k : Nat) (v : β) (l : List (Nat × β)) :
    List.lookup k ((k, v) :: l) = some v := by
  simp [List.lookup]

theorem lookupg_cons_ne {β : Type} (j k : Nat) (v : β) (l : List (Nat × β))
    (h : j ≠ k) : List.lookup j ((k, v) :: l) = List.lookup j l := by
  have hb : (j == k) = false := beq_eq_false_iff_ne.mpr h
  simp [List.lookup, hb]

theorem lookup_filter_key {β : Type} (p : Nat → Bool) (l : List (Nat × β))
    (j : Nat) :
    List.lookup j (l.filter (fun e => p e.1)) =
      if p j then List.lookup j l else none := by
  induction l with
  | nil => cases hp : p j <;> simp [hp]
  | cons e rest ih =>
    rcases e with ⟨ek, ev⟩
    rw [List.filter_cons]
    by_cases hj : j = ek
    · subst hj
      cases hp : p j with
      | true => simp [hp, List.lookup]
      | false => simp [hp, ih]
    · cases hp : p ek with
      | true =>
        simp only [hp, if_true]
        rw [lookupg_cons_ne j ek ev _ hj, lookupg_cons_ne j ek ev _ hj, ih]
      | false =>
        simp only [hp, Bool.false_eq_true, if_false]
        rw [ih, lookupg_cons_ne j ek ev _ hj]

theorem nodesOf_sub_nodesList (l : List CST) (c : CST) (hc : c ∈ l) :
    ∀ m ∈ nodesOf c, m ∈ nodesList l := by
  induction l with
  | nil => cases hc
  | cons c' rest ih =>
    intro m hm
    rw [nodesList]
    rcases List.mem_cons.mp hc with rfl | hc'
    · exact List.mem_append_left _ hm
    · exact List.mem_append_right _ (ih hc' m hm)

theorem lookup_append_isSome {β : Type} (j : Nat) (l1 l2 : List (Nat × β))
    (h : (List.lookup j l2).isSome = true) :
    (List.lookup j (l1 ++ l2)).isSome = true := by
  cases hl : List.lookup j l1 with
  | some v => rw [lookup_append_some j l1 l2 v hl]; rfl
  | none => rw [lookup_append_none j l1 l2 hl]; exact h

theorem idsOf_mk (i : Nat) (sp : Nat × Nat) (k tx : String) (ch : List CST) :
    idsOf (CST.mk i sp k tx ch) = i :: idsOfList ch := by
  simp [idsOf, idsOfList, nodesOf, CST.id]

theorem idsOfList_cons (c : CST) (rest : List CST) :
    idsOfList (c :: rest) = idsOf c ++ idsOfList rest := by
  simp [idsOfList, idsOf, nodesList]

mutual

theorem incrNode_correct (c : CST) (dirty : Option (List (Nat × Nat)))
    (cache : SemCache) (pool : List CST)
    (hpool : ∀ m ∈ nodesOf c, m ∈ pool)
    (hov : ∀ m ∈ nodesOf c, ovIdx m.kind m.children = [])
    (hinj : ∀ n ∈ pool, ∀ n2 ∈ pool, n.id = n2.id → semOf n = semOf n2)
    (hcons : ∀ e ∈ cache, ∀ n ∈ pool, n.id = e.1 → e.2 = semOf n) :
    (∀ e ∈ incrNode dirty cache c, ∀ n ∈ pool, n.id = e.1 → e.2 = semOf n)
    ∧ (∀ m ∈ nodesOf c,
        (lookupC (incrNode dirty cache c) m.id).isSome = true)
    ∧ (∃ nw, incrNode dirty cache c = nw ++ cache
        ∧ ∀ e ∈ nw, e.1 ∈ idsOf c) := by
  cases c with
  | mk i sp k tx ch =>
    have hpoolch : ∀ m ∈ nodesList ch, m ∈ pool := by
      intro m hm
      exact hpool m (by rw [nodesOf]; exact List.mem_cons_of_mem _ hm)
    have hovch : ∀ m ∈ nodesList ch, ovIdx m.kind m.children = [] := by
      intro m hm
      exact hov m (by rw [nodesOf]; exact List.mem_cons_of_mem _ hm)
    have htop : ovIdx k ch = [] :=
      hov (CST.mk i sp k tx ch) (by rw [nodesOf]; exact List.mem_cons_self _ _)
    have hwnil : ∀ cs : List StatementSemantics, ovWrites k ch cs = [] := by
      intro cs
      rw [ovWrites, htop]
      rfl
    obtain ⟨hc1, hpres1, nw1, hsh1, hk1⟩ :=
      incrList_correct ch dirty cache pool hpoolch hovch hinj hcons
    have hself : CST.mk i sp k tx ch ∈ pool :=
      hpool _ (by rw [nodesOf]; exact List.mem_cons_self _ _)
    have hchval : ∀ c2 ∈ ch,
        getSemCache (incrList dirty cache ch) c2.id = semOf c2 := by
      intro c2 hc2
      have hsome := hpres1 c2
        (nodesOf_sub_nodesList ch c2 hc2 c2 (self_mem_nodesOf c2))
      obtain ⟨v, hv⟩ := Option.isSome_iff_exists.mp hsome
      have hmem := mem_of_lookup _ _ _ hv
      have hveq := hc1 (c2.id, v) hmem c2
        (hpoolch c2 (nodesOf_sub_nodesList ch c2 hc2 c2 (self_mem_nodesOf c2)))
        rfl
      rw [getSemCache, hv, Option.getD_some]
      exact hveq
    have hmapeq : ch.map (fun c2 => getSemCache (incrList dirty cache ch) c2.id)
        = semList ch := by
      rw [semList_eq_map]
      exact List.map_congr_left hchval
    have hval : onNodeS i sp k tx ch
        (ch.map (fun c2 => getSemCache (incrList dirty cache ch) c2.id))
        (getSemCache (incrList dirty cache ch) i)
        = semOf (CST.mk i sp k tx ch) := by
      rw [hmapeq]
      cases hv : lookupC (incrList dirty cache ch) i with
      | none =>
        rw [getSemCache, hv, Option.getD_none, semOf_mk]
      | some v =>
        have hmem := mem_of_lookup _ _ _ hv
        have hveq : v = semOf (CST.mk i sp k tx ch) :=
          hc1 (i, v) hmem _ hself rfl
        rw [getSemCache, hv, Option.getD_some, hveq, semOf_mk, onNodeS_idem,
          ← semOf_mk]
    rw [incrNode]
    simp only [hwnil, List.map_nil, List.cons_append, List.nil_append]
    by_cases hrec :
        recomputeNode dirty (incrList dirty cache ch) sp i = true
    · rw [if_pos hrec]
      refine ⟨?_, ?_, ?_⟩
      · intro e he n hn heid
        rcases List.mem_cons.mp he with rfl | he2
        · have : semOf n = semOf (CST.mk i sp k tx ch) :=
            hinj n hn _ hself heid
          rw [this]
          exact hval
        · exact hc1 e he2 n hn heid
      · intro m hm
        rw [nodesOf] at hm
        rcases List.mem_cons.mp hm with rfl | hm2
        · rw [lookupC, CST.id, lookupg_cons_self]
          rfl
        · by_cases hm3 : m.id = i
          · rw [lookupC, hm3, lookupg_cons_self]
            rfl
          · rw [lookupC, lookupg_cons_ne _ _ _ _ hm3]
            exact hpres1 m hm2
      · refine ⟨(i, onNodeS i sp k tx ch
          (ch.map (fun c2 => getSemCache (incrList dirty cache ch) c2.id))
          (getSemCache (incrList dirty cache ch) i)) :: nw1, ?_, ?_⟩
        · rw [hsh1]
          rfl
        · intro e he
          rcases List.mem_cons.mp he with rfl | he2
          · rw [idsOf_mk]
            exact List.mem_cons_self _ _
          · rw [idsOf_mk]
            exact List.mem_cons_of_mem _ (hk1 e he2)
    · rw [if_neg hrec]
      refine ⟨hc1, ?_, nw1, hsh1, fun e he => by
        rw [idsOf_mk]; exact List.mem_cons_of_mem _ (hk1 e he)⟩
      intro m hm
      rw [nodesOf] at hm
      rcases List.mem_cons.mp hm with rfl | hm2
      · cases dirty with
        | none => exact absurd rfl hrec
        | some d =>
          have hrec2 : ¬ ((overlapsDirty d sp
              || (lookupC (incrList (some d) cache ch) i).isNone) = true) :=
            hrec
          simp only [Bool.or_eq_true, not_or] at hrec2
          rw [CST.id, lookupC]
          cases hv : List.lookup i (incrList (some d) cache ch) with
          | none =>
            exfalso
            apply hrec2.2
            rw [lookupC, hv]
            rfl
          | some v => rfl
      · exact hpres1 m hm2

theorem incrList_correct (l : List CST) (dirty : Option (List (Nat × Nat)))
    (cache : SemCache) (pool : List CST)
    (hpool : ∀ m ∈ nodesList l, m ∈ pool)
    (hov : ∀ m ∈ nodesList l, ovIdx m.kind m.children = [])
    (hinj : ∀ n ∈ pool, ∀ n2 ∈ pool, n.id = n2.id → semOf n = semOf n2)
    (hcons : ∀ e ∈ cache, ∀ n ∈ pool, n.id = e.1 → e.2 = semOf n) :
    (∀ e ∈ incrList dirty cache l, ∀ n ∈ pool, n.id = e.1 → e.2 = semOf n)
    ∧ (∀ m ∈ nodesList l,
        (lookupC (incrList dirty cache l) m.id).isSome = true)
    ∧ (∃ nw, incrList dirty cache l = nw ++ cache
        ∧ ∀ e ∈ nw, e.1 ∈ idsOfList l) := by
  cases l with
  | nil =>
    refine ⟨hcons, ?_, [], rfl, ?_⟩
    · intro m hm
      exact absurd hm (List.not_mem_nil m)
    · intro e he
      exact absurd he (List.not_mem_nil e)
  | cons c rest =>
    have hpoolc : ∀ m ∈ nodesOf c, m ∈ pool := by
      intro m hm
      exact hpool m (by rw [nodesList]; exact List.mem_append_left _ hm)
    have hovc : ∀ m ∈ nodesOf c, ovIdx m.kind m.children = [] := by
      intro m hm
      exact hov m (by rw [nodesList]; exact List.mem_append_left _ hm)
    obtain ⟨hcA, hpresA, nwA, hshA, hkA⟩ :=
      incrNode_correct c dirty cache pool hpoolc hovc hinj hcons
    have hpoolr : ∀ m ∈ nodesList rest, m ∈ pool := by
      intro m hm
      exact hpool m (by rw [nodesList]; exact List.mem_append_right _ hm)
    have hovr : ∀ m ∈ nodesList rest, ovIdx m.kind m.children = [] := by
      intro m hm
      exact hov m (by rw [nodesList]; exact List.mem_append_right _ hm)
    obtain ⟨hcB, hpresB, nwB, hshB, hkB⟩ :=
      incrList_correct rest dirty (incrNode dirty cache c) pool hpoolr hovr
        hinj hcA
    rw [incrList]
    refine ⟨hcB, ?_, nwB ++ nwA, ?_, ?_⟩
    · intro m hm
      rw [nodesList] at hm
      rcases List.mem_append.mp hm with hm2 | hm2
      · rw [lookupC, hshB]
        exact lookup_append_isSome _ _ _ (hpresA m hm2)
      · exact hpresB m hm2
    · rw [hshB, hshA, List.append_assoc]
    · intro e he
      rw [idsOfList_cons]
      rcases List.mem_append.mp he with he2 | he2
      · exact List.mem_append_right _ (hkB e he2)
      · exact List.mem_append_left _ (hkA e he2)

end

/-- C2 counterexample. check_dependencies persists cross-entry writes: in a
from-scratch pass over #show X. it overwrites the global_vars of the term
child's cache entry with the set containing X, and the write survives in
the map. Incrementally: the statement and the root keep their correct
cached bundles and no byte range is dirty, but the term child's id is
fresh (the comment in EncodingSemantics::on_node records that the parser
sometimes renumbers ids outside the changed ranges), so the child is
recomputed from scratch — global_vars empty — while the skipped parent
never re-applies its write. The two maps differ at the child id even
though every cached entry equals the from-scratch bundle of its node, so
the claimed equivalence fails for every document whose analysis performs
such writes. -/
theorem c2_stale_child_override :
    (idsOf docShow).Nodup
    ∧ (∀ e ∈ showCache, ∀ n ∈ nodesOf docShow, n.id = e.1 → e.2 = semOf n)
    ∧ (∀ e ∈ showCache, e.1 ∈ [21, 20])
    ∧ (lookupC (incrRun none [] [] docShow) 23).map
        (fun b => b.global_vars) = some {"X"}
    ∧ (lookupC (incrRun (some []) showCache [21, 20] docShow) 23).map
        (fun b => b.global_vars) = some ∅
    ∧ lookupC (incrRun (some []) showCache [21, 20] docShow) 23 ≠
        lookupC (incrRun none [] [] docShow) 23 := by
  refine ⟨by decide, by decide, by decide, by decide, by decide, by decide⟩

/-- C2 amended. The statement pass is not purely per-node: check_dependencies
persistently overwrites the global_vars of child entries of show, external,
weak-constraint and optimize statements, and a node whose dirty guard does
not fire never re-applies those writes, so the claimed equivalence fails in
general (see the counterexample). For every document whose statements
perform no such cross-entry writes (ovIdx empty at every node), the
incremental pass is observationally equivalent to a from-scratch pass,
under the parser-stability hypotheses: the current tree has pairwise
distinct node ids, every surviving cache entry whose id belongs to a node
of the current tree holds exactly that node's from-scratch bundle
(tree-sitter reuses a node id only for an unchanged subtree), and every
cache entry's id was recorded in the previous pass. The recomputation of a
node starts from its cached bundle, so the proof also needs that one visit
is idempotent (onNodeS_idem). -/
theorem c2_incremental_equivalence (dirty : Option (List (Nat × Nat)))
    (cache : SemCache) (oldIds : List Nat) (t : CST)
    (hnd : (idsOf t).Nodup)
    (hnw : ∀ m ∈ nodesOf t, ovIdx m.kind m.children = [])
    (hstable : ∀ e ∈ cache, ∀ n ∈ nodesOf t, n.id = e.1 → e.2 = semOf n)
    (hold : ∀ e ∈ cache, e.1 ∈ oldIds) (j : Nat) :
    lookupC (incrRun dirty cache oldIds t) j =
      lookupC (incrRun none [] [] t) j := by
  have hinj : ∀ n ∈ nodesOf t, ∀ n2 ∈ nodesOf t,
      n.id = n2.id → semOf n = semOf n2 := by
    intro n hn n2 hn2 he
    rw [List.inj_on_of_nodup_map hnd hn hn2 he]
  obtain ⟨hc1, hpres1, nw1, hsh1, hk1⟩ :=
    incrNode_correct t dirty cache (nodesOf t) (fun m hm => hm) hnw hinj
      hstable
  obtain ⟨hc2, hpres2, nw2, hsh2, hk2⟩ :=
    incrNode_correct t none [] (nodesOf t) (fun m hm => hm) hnw hinj
      (fun e he => absurd he (List.not_mem_nil e))
  rw [incrRun, incrRun, encCleanup, encCleanup, lookupC, lookupC,
    lookup_filter_key (fun a => !(decide (a ∈ oldIds)
      && !decide (a ∈ idsOf t))),
    lookup_filter_key (fun a => !(decide (a ∈ ([] : List Nat))
      && !decide (a ∈ idsOf t)))]
  by_cases hjt : j ∈ idsOf t
  · have e1 : (!(decide (j ∈ oldIds) && !decide (j ∈ idsOf t))) = true := by
      simp [hjt]
    have e2 : (!(decide (j ∈ ([] : List Nat))
        && !decide (j ∈ idsOf t))) = true := by
      simp
    rw [e1, e2, if_pos rfl, if_pos rfl]
    unfold idsOf at hjt
    obtain ⟨n, hn, rfl⟩ := List.mem_map.mp hjt
    obtain ⟨v1, hv1⟩ := Option.isSome_iff_exists.mp
      (hpres1 n hn)
    obtain ⟨v2, hv2⟩ := Option.isSome_iff_exists.mp
      (hpres2 n hn)
    have hv1e : v1 = semOf n :=
      hc1 (n.id, v1) (mem_of_lookup _ _ _ hv1) n
        hn rfl
    have hv2e : v2 = semOf n :=
      hc2 (n.id, v2) (mem_of_lookup _ _ _ hv2) n
        hn rfl
    rw [lookupC] at hv1 hv2
    rw [hv1, hv2, hv1e, hv2e]
  · have hnw1 : List.lookup j nw1 = none :=
      lookup_none_of_no_key j nw1
        (fun e he heq => hjt (heq ▸ hk1 e he))
    have hnw2 : List.lookup j nw2 = none :=
      lookup_none_of_no_key j nw2
        (fun e he heq => hjt (heq ▸ hk2 e he))
    rw [hsh1, hsh2, lookup_append_none j nw1 cache hnw1,
      lookup_append_none j nw2 [] hnw2]
    have hrhs : List.lookup j ([] : SemCache) = none := rfl
    rw [hrhs, ite_self]
    by_cases hjo : j ∈ oldIds
    · have e1 : (!(decide (j ∈ oldIds) && !decide (j ∈ idsOf t))) = false := by
        simp [hjo, hjt]
      simp only [e1, Bool.false_eq_true, if_false]
    · have e1 : (!(decide (j ∈ oldIds) && !decide (j ∈ idsOf t))) = true := by
        simp [hjo]
      rw [e1, if_pos rfl]
      exact lookup_none_of_no_key j cache
        (fun e he heq => hjo (heq ▸ hold e he))

theorem c2_incremental_equivalence_witness :
    (idsOf docA1).Nodup
    ∧ (∀ m ∈ nodesOf docA1, ovIdx m.kind m.children = [])
    ∧ lookupC (incrRun (some [(0, 1)])
        [(9, semOf (CST.mk 9 (2, 3) "term" ""
          [CST.mk 10 (2, 3) "VARIABLE" "X" []]))] [9] docA1) 4 =
      lookupC (incrRun none [] [] docA1) 4 :=
  ⟨by decide, by decide,
    c2_incremental_equivalence (some [(0, 1)])
      [(9, semOf (CST.mk 9 (2, 3) "term" ""
        [CST.mk 10 (2, 3) "VARIABLE" "X" []]))] [9] docA1 (by decide)
      (by decide) (by decide) (by decide) 4⟩

end Clinlint
